import Mathlib

set_option maxRecDepth 10000
set_option maxHeartbeats 2000000

/-!
Shallow embedding of the Meet-Minding meeting-transcript pipeline
(`mcp_server.py`, `meeting_processor.py`, `team_storage.py`, `app.py`)
and verification of its specification claims.

Python dictionaries are modelled as ordered association lists over a JSON
value type; Python strings as Lean `String` / `List Char` (ASCII inputs);
`re.findall` as a backtracking matcher over a small regex AST faithful to
the patterns appearing in the source (ordered alternation, greedy
quantifiers, character classes, `re.IGNORECASE`, `re.MULTILINE` via a
begin-of-line start condition, leftmost non-overlapping search).
-/

/-- JSON-like values, the model of Python values held in the result
dictionaries (`json.loads` output, task dicts, stored records). -/
inductive JVal where
  | str (s : String)
  | num (n : Int)
  | boolean (b : Bool)
  | null
  | arr (xs : List JVal)
  | obj (fs : List (String × JVal))

/-- Python dictionary model: insertion-ordered association list with
unique keys. -/
abbrev PyDict := List (String × JVal)

/-- Model of `dict.get(k, dflt)`. -/
def pyGet (d : PyDict) (k : String) (dflt : JVal) : JVal :=
  match d.lookup k with
  | some v => v
  | none => dflt

/-- Model of `d[k] = v`: update in place if the key exists (keeping its
position), otherwise append the key at the end. -/
def pySet (d : PyDict) (k : String) (v : JVal) : PyDict :=
  match d with
  | [] => [(k, v)]
  | (k0, v0) :: rest => if k0 = k then (k0, v) :: rest else (k0, v0) :: pySet rest k v

/-- Python truthiness of a JSON-like value. -/
def pyTruthy : JVal → Bool
  | .str s => s != ""
  | .num n => n != 0
  | .boolean b => b
  | .null => false
  | .arr xs => !xs.isEmpty
  | .obj fs => !fs.isEmpty

/-- The ASCII whitespace characters matched by Python `\s` and stripped
by `str.strip()` (the transcripts in scope are ASCII). -/
def pyWs (c : Char) : Bool :=
  c = ' ' || c = '\t' || c = '\n' || c = '\r' || c = '\x0b' || c = '\x0c'

/-- Model of `str.strip()` on a character list. -/
def stripChars (l : List Char) : List Char :=
  ((l.dropWhile pyWs).reverse.dropWhile pyWs).reverse

/-- Model of `str.strip()`. -/
def pyStrip (s : String) : String := ⟨stripChars s.data⟩

/-- ASCII uppercase letter, the class `[A-Z]`. -/
def isUpperAZ (c : Char) : Bool := 'A' ≤ c && c ≤ 'Z'

/-- ASCII letter, the class `[a-zA-Z]`. -/
def isAlphaAZ (c : Char) : Bool := ('a' ≤ c && c ≤ 'z') || ('A' ≤ c && c ≤ 'Z')

/-- The class `[a-zA-Z\s]`. -/
def isAlphaWs (c : Char) : Bool := isAlphaAZ c || pyWs c

/-- The class `[:.\s]`. -/
def isColonDotWs (c : Char) : Bool := c = ':' || c = '.' || pyWs c

/-- The class `[^.!?]`. -/
def isNotSentEnd (c : Char) : Bool := !(c = '.' || c = '!' || c = '?')

/-- Word character for `\b` boundaries: `[a-zA-Z0-9_]`. -/
def isWordChar (c : Char) : Bool := isAlphaAZ c || ('0' ≤ c && c ≤ '9') || c = '_'

/-- Regex abstract syntax covering the constructs used by the source
patterns.  `nextNotWord` is a zero-width check used for a trailing `\b`
after a word character; a leading `^`/`\b` is handled by the scanner. -/
inductive RE where
  | ch (c : Char)
  | cls (p : Char → Bool)
  | seq (a b : RE)
  | alt (a b : RE)
  | star (a : RE)
  | grp (a : RE)
  | eps
  | nextNotWord

/-- `a+` as `a a*`. -/
def RE.plus (a : RE) : RE := .seq a (.star a)

/-- Sequence of several regexes. -/
def RE.cat : List RE → RE
  | [] => .eps
  | [r] => r
  | r :: rs => .seq r (RE.cat rs)

/-- Case-sensitive literal string. -/
def RE.lit (s : String) : RE := RE.cat (s.data.map RE.ch)

/-- Case-insensitive literal string (model of a literal under
`re.IGNORECASE`, ASCII). -/
def RE.ilit (s : String) : RE :=
  RE.cat (s.data.map fun c => RE.cls fun x => x.toLower = c.toLower)

/-- Ordered alternation of several branches (regex `|` tries branches
left to right). -/
def RE.alts : List RE → RE
  | [] => .eps
  | [r] => r
  | r :: rs => .alt r (RE.alts rs)

/-- All ways a regex can match a prefix of the input, in backtracking
priority order (the head is the match Python's engine commits to):
each element is the remaining suffix paired with the list of group
captures opened inside, in group order.  Greedy `star` prefers more
iterations; `alt` prefers its left branch.  The fuel only bounds
recursion depth and is chosen large enough never to bite (every `star`
iteration must consume input). -/
def reMs (fuel : Nat) (r : RE) (s : List Char) : List (List Char × List (List Char)) :=
  match fuel with
  | 0 => []
  | fuel + 1 =>
    match r with
    | .ch c =>
      match s with
      | x :: rest => if x = c then [(rest, [])] else []
      | [] => []
    | .cls p =>
      match s with
      | x :: rest => if p x then [(rest, [])] else []
      | [] => []
    | .seq a b =>
      (reMs fuel a s).flatMap fun m1 =>
        (reMs fuel b m1.1).map fun m2 => (m2.1, m1.2 ++ m2.2)
    | .alt a b => reMs fuel a s ++ reMs fuel b s
    | .star a =>
      ((reMs fuel a s).flatMap fun m1 =>
        if m1.1.length < s.length then
          (reMs fuel (.star a) m1.1).map fun m2 => (m2.1, m1.2 ++ m2.2)
        else []) ++ [(s, [])]
    | .grp a =>
      (reMs fuel a s).map fun m1 => (m1.1, s.take (s.length - m1.1.length) :: m1.2)
    | .eps => [(s, [])]
    | .nextNotWord =>
      match s with
      | [] => [(s, [])]
      | x :: _ => if isWordChar x then [] else [(s, [])]

/-- Structural size of a regex, used to budget the matcher fuel. -/
def reSize : RE → Nat
  | .ch _ => 1
  | .cls _ => 1
  | .seq a b => reSize a + reSize b + 1
  | .alt a b => reSize a + reSize b + 1
  | .star a => reSize a + 1
  | .grp a => reSize a + 1
  | .eps => 1
  | .nextNotWord => 1

/-- Fuel sufficient for `reMs`: recursion either descends into a strictly
smaller regex or unfolds a `star` on a strictly shorter suffix. -/
def reFuel (r : RE) (s : List Char) : Nat := (reSize r + 2) * (s.length + 2)

/-- Start-of-match conditions of the source patterns: anywhere
(no anchor), begin-of-line (`^` under `re.MULTILINE`), or a `\b` before
a word character (previous character is not a word character). -/
inductive StartCond where
  | anywhere
  | bol
  | wordBoundary

/-- Whether a scan position satisfies the start condition, given the
character preceding the position (`none` at the start of the string). -/
def StartCond.ok : StartCond → Option Char → Bool
  | .anywhere, _ => true
  | .bol, none => true
  | .bol, some c => c = '\n'
  | .wordBoundary, none => true
  | .wordBoundary, some c => !isWordChar c

/-- One result of `re.findall`: the whole match and the group captures. -/
structure FAMatch where
  whole : List Char
  groups : List (List Char)

/-- Model of `re.findall`: scan positions left to right; at each
position satisfying the start condition take the engine's first match
(if any); record it and resume after it (advancing one character after
an empty match, as Python does). -/
def findAllAux (cond : StartCond) (r : RE) : Nat → List Char → Option Char → List FAMatch
  | 0, _, _ => []
  | _ + 1, [], prev =>
    if cond.ok prev then
      match reMs (reFuel r []) r [] with
      | (_, caps) :: _ => [⟨[], caps⟩]
      | [] => []
    else []
  | fuel + 1, s@(x :: rest), prev =>
    if cond.ok prev then
      match reMs (reFuel r s) r s with
      | (remaining, caps) :: _ =>
        let len := s.length - remaining.length
        if len = 0 then
          ⟨[], caps⟩ :: findAllAux cond r fuel rest (some x)
        else
          ⟨s.take len, caps⟩ :: findAllAux cond r fuel remaining (some (s.get? (len - 1)).iget)
      | [] => findAllAux cond r fuel rest (some x)
    else findAllAux cond r fuel rest (some x)

/-- Model of `re.findall(pattern, s)` returning whole matches and
captures. -/
def findAll (cond : StartCond) (r : RE) (s : String) : List FAMatch :=
  findAllAux cond r (s.data.length + 1) s.data none

/-- `re.findall` with a single capturing group returns the group
contents. -/
def findAll1 (cond : StartCond) (r : RE) (s : String) : List String :=
  (findAll cond r s).map fun m => ⟨(m.groups.get? 0).getD []⟩

/-- `re.findall` with two capturing groups returns pairs of group
contents. -/
def findAll2 (cond : StartCond) (r : RE) (s : String) : List (String × String) :=
  (findAll cond r s).map fun m => (⟨(m.groups.get? 0).getD []⟩, ⟨(m.groups.get? 1).getD []⟩)

/-- `re.findall` with no capturing group returns the whole matches. -/
def findAll0 (cond : StartCond) (r : RE) (s : String) : List String :=
  (findAll cond r s).map fun m => ⟨m.whole⟩

/-! ## Fallback pattern-based extractor (`mcp_server.py`, class `MeetingAnalyzer`) -/

/-- Pattern `^([A-Z][a-zA-Z\s]+):\s` (used with `re.MULTILINE`). -/
def partPat1 : RE :=
  RE.cat [.grp (.seq (.cls isUpperAZ) (RE.plus (.cls isAlphaWs))), .ch ':', .cls pyWs]

/-- Pattern `\[([A-Z][a-zA-Z\s]+)\]`. -/
def partPat2 : RE :=
  RE.cat [.ch '[', .grp (.seq (.cls isUpperAZ) (RE.plus (.cls isAlphaWs))), .ch ']']

/-- Pattern `Speaker\s+([A-Z][a-zA-Z\s]+)`. -/
def partPat3 : RE :=
  RE.cat [RE.lit "Speaker", RE.plus (.cls pyWs),
    .grp (.seq (.cls isUpperAZ) (RE.plus (.cls isAlphaWs)))]

/-- The group captures of the three participant patterns, in source
order. -/
def participantCaptures (t : String) : List String :=
  findAll1 .bol partPat1 t ++ findAll1 .anywhere partPat2 t ++ findAll1 .anywhere partPat3 t

/-- Model of `MeetingAnalyzer.extract_participants`.  The Python code
accumulates names in a `set` and returns `list(participants)`; within a
fixed process that iteration order is a deterministic function of the
insertion sequence, modelled here as first-insertion order with
deduplication. -/
def extract_participants (t : String) : List String :=
  (participantCaptures t).foldl
    (fun acc m =>
      let name := pyStrip m
      if 1 < name.length && name != "Speaker" && name != "Unknown" && !acc.contains name then
        acc ++ [name]
      else acc)
    []

/-- Task pattern 1 (under `re.IGNORECASE`):
`(?:action item|task|todo|assignment|responsible for|will do|needs to|should)[:.\s]+([^.!?]+)`. -/
def taskPat1 : RE :=
  RE.cat [RE.alts [RE.ilit "action item", RE.ilit "task", RE.ilit "todo",
      RE.ilit "assignment", RE.ilit "responsible for", RE.ilit "will do",
      RE.ilit "needs to", RE.ilit "should"],
    RE.plus (.cls isColonDotWs), .grp (RE.plus (.cls isNotSentEnd))]

/-- Task pattern 2 (under `re.IGNORECASE`, which makes `[A-Z]` match any
letter): `([A-Z][a-zA-Z\s]+)\s+(?:will|should|needs to|is responsible for|assigned to)\s+([^.!?]+)`. -/
def taskPat2 : RE :=
  RE.cat [.grp (.seq (.cls isAlphaAZ) (RE.plus (.cls isAlphaWs))),
    RE.plus (.cls pyWs),
    RE.alts [RE.ilit "will", RE.ilit "should", RE.ilit "needs to",
      RE.ilit "is responsible for", RE.ilit "assigned to"],
    RE.plus (.cls pyWs), .grp (RE.plus (.cls isNotSentEnd))]

/-- Task pattern 3 (under `re.IGNORECASE`):
`by\s+([A-Z][a-zA-Z\s]+)[:.\s]+([^.!?]+)`. -/
def taskPat3 : RE :=
  RE.cat [RE.ilit "by", RE.plus (.cls pyWs),
    .grp (.seq (.cls isAlphaAZ) (RE.plus (.cls isAlphaWs))),
    RE.plus (.cls isColonDotWs), .grp (RE.plus (.cls isNotSentEnd))]

/-- The task dictionary built for a two-group (assignee, description)
match. -/
def mkAssignedTask (p : String × String) : JVal :=
  .obj [("task", .str (pyStrip p.2)), ("assignee", .str (pyStrip p.1)),
    ("due_date", .str "Not specified"), ("priority", .str "medium"),
    ("status", .str "assigned")]

/-- The task dictionary built for a single-group (description only)
match. -/
def mkDiscussedTask (m : String) : JVal :=
  .obj [("task", .str (pyStrip m)), ("assignee", .str "Not specified"),
    ("due_date", .str "Not specified"), ("priority", .str "medium"),
    ("status", .str "discussed")]

/-- Model of `MeetingAnalyzer.extract_tasks_pattern_based`: the first
pattern has one group (yielding strings, hence the `else` branch of the
`isinstance` test), the other two have two groups (yielding tuples);
matches are appended in pattern order and the result capped at 10. -/
def extract_tasks_pattern_based (t : String) : List JVal :=
  (((findAll1 .anywhere taskPat1 t).foldl (fun acc m => acc ++ [mkDiscussedTask m]) []
    |> (findAll2 .anywhere taskPat2 t).foldl (fun acc p => acc ++ [mkAssignedTask p])
    |> (findAll2 .anywhere taskPat3 t).foldl (fun acc p => acc ++ [mkAssignedTask p]))).take 10

/-- Decision pattern 1 (under `re.IGNORECASE`):
`(?:decided|decision|agreed|resolved|concluded)[:.\s]+([^.!?]+)`. -/
def decPat1 : RE :=
  RE.cat [RE.alts [RE.ilit "decided", RE.ilit "decision", RE.ilit "agreed",
      RE.ilit "resolved", RE.ilit "concluded"],
    RE.plus (.cls isColonDotWs), .grp (RE.plus (.cls isNotSentEnd))]

/-- Decision pattern 2 (under `re.IGNORECASE`):
`we\s+(?:will|shall|agreed to|decided to)\s+([^.!?]+)`. -/
def decPat2 : RE :=
  RE.cat [RE.ilit "we", RE.plus (.cls pyWs),
    RE.alts [RE.ilit "will", RE.ilit "shall", RE.ilit "agreed to", RE.ilit "decided to"],
    RE.plus (.cls pyWs), .grp (RE.plus (.cls isNotSentEnd))]

/-- Decision pattern 3 (under `re.IGNORECASE`):
`final decision[:.\s]+([^.!?]+)`. -/
def decPat3 : RE :=
  RE.cat [RE.ilit "final decision", RE.plus (.cls isColonDotWs),
    .grp (RE.plus (.cls isNotSentEnd))]

/-- The group captures of the three decision patterns, in source order. -/
def decisionCaptures (t : String) : List String :=
  findAll1 .anywhere decPat1 t ++ findAll1 .anywhere decPat2 t ++ findAll1 .anywhere decPat3 t

/-- Model of `MeetingAnalyzer.extract_decisions`: strip each capture,
keep it only when its length exceeds 10, cap the result at 5. -/
def extract_decisions (t : String) : List String :=
  ((decisionCaptures t).foldl
    (fun acc m =>
      let decision := pyStrip m
      if 10 < decision.length then acc ++ [decision] else acc)
    []).take 5

/-- Topics pattern `\b[A-Z][a-zA-Z]{3,}\b` (no flags); the leading `\b`
is the scanner start condition, the trailing `\b` follows letters so it
reduces to requiring the next character not to be a word character. -/
def topicsPat : RE :=
  RE.cat [.cls isUpperAZ, .cls isAlphaAZ, .cls isAlphaAZ, .cls isAlphaAZ,
    .star (.cls isAlphaAZ), .nextNotWord]

/-- Model of the word-frequency accumulation in
`analyze_meeting_transcript`: `word_freq[word] = word_freq.get(word, 0) + 1`
over the topic-pattern matches, skipping the stopword list; key order is
first-occurrence order, as for a Python dict. -/
def topicsWordFreq (t : String) : List (String × Nat) :=
  (findAll0 .wordBoundary topicsPat t).foldl
    (fun freq w =>
      if w = "Speaker" || w = "The" || w = "This" || w = "That" || w = "With" || w = "From" then
        freq
      else bump freq w)
    []
where
  bump : List (String × Nat) → String → List (String × Nat)
    | [], w => [(w, 1)]
    | (k, n) :: rest, w => if k = w then (k, n + 1) :: rest else (k, n) :: bump rest w

/-- Stable insertion of an item into a count-descending list, after all
items of greater or equal count (models Python's stable
`sorted(..., key=count, reverse=True)`). -/
def insertDescByCount (x : String × Nat) : List (String × Nat) → List (String × Nat)
  | [] => [x]
  | y :: ys => if x.2 ≤ y.2 then y :: insertDescByCount x ys else x :: y :: ys

/-- Stable descending-by-count sort of the frequency table. -/
def sortDescByCount (l : List (String × Nat)) : List (String × Nat) :=
  l.foldl (fun acc x => insertDescByCount x acc) []

/-- The topic list: top 5 words by descending frequency, ties in
first-seen order. -/
def topicsOf (t : String) : List String :=
  ((sortDescByCount (topicsWordFreq t)).take 5).map (·.1)

/-- The summary built by `analyze_meeting_transcript`: first three
`'.'`-delimited segments rejoined with `'. '`, stripped, plus a final
`'.'` (`transcript.split('.')` is never empty, so the `else` branch of
the conditional is dead). -/
def patternSummary (t : String) : String :=
  pyStrip (String.intercalate ". " ((t.splitOn ".").take 3)) ++ "."

/-- The description field of a task dictionary (`task["task"]`). -/
def taskDescOf (tv : JVal) : JVal :=
  match tv with
  | .obj fs => pyGet fs "task" .null
  | _ => .null

/-- Model of the `analyze_meeting_transcript` tool (`mcp_server.py`):
the full pattern-based analysis result.  `ts` models the
`datetime.now().isoformat()` timestamp taken during the call; the
`try`/`except` wrapper is dead code for this pure computation and the
cache write does not affect the returned value. -/
def analyze_meeting_transcript (t ts : String) : PyDict :=
  let tasks := extract_tasks_pattern_based t
  [("summary", .str (patternSummary t)),
   ("participants", .arr ((extract_participants t).map .str)),
   ("key_decisions", .arr ((extract_decisions t).map .str)),
   ("tasks", .arr tasks),
   ("action_items", .arr (tasks.map taskDescOf)),
   ("next_meeting", .str "Not specified"),
   ("topics_discussed", .arr ((topicsOf t).map .str)),
   ("analysis_timestamp", .str ts),
   ("transcript_length", .num t.length),
   ("processing_method", .str "pattern_based_extraction")]

/-! ## Generic lemmas about the accumulation loops -/

/-- A loop appending `f x` for every element equals `map`. -/
theorem foldl_append_map {α β : Type} (l : List α) (init : List β) (f : α → β) :
    l.foldl (fun acc x => acc ++ [f x]) init = init ++ l.map f := by
  induction l generalizing init with
  | nil => simp
  | cons x xs ih => simp [List.foldl_cons, ih]

/-- A loop appending `pyStrip m` only when its length exceeds 10 equals
a map followed by a filter. -/
theorem foldl_strip_filter (l : List String) (init : List String) :
    l.foldl (fun acc m => let d := pyStrip m; if 10 < d.length then acc ++ [d] else acc) init
      = init ++ ((l.map pyStrip).filter fun d => 10 < d.length) := by
  induction l generalizing init with
  | nil => simp
  | cons x xs ih =>
    simp only [List.foldl_cons, List.map_cons, List.filter_cons, ih]
    by_cases h : 10 < (pyStrip x).length <;> simp [h]

/-- `extract_decisions` as a map/filter/take pipeline over the raw
captures. -/
theorem extract_decisions_eq (t : String) :
    extract_decisions t
      = (((decisionCaptures t).map pyStrip).filter fun d => 10 < d.length).take 5 := by
  unfold extract_decisions
  rw [foldl_strip_filter]
  simp

/-- `extract_tasks_pattern_based` as a map/append/take pipeline over the
raw captures. -/
theorem extract_tasks_eq (t : String) :
    extract_tasks_pattern_based t
      = (((findAll1 .anywhere taskPat1 t).map mkDiscussedTask
          ++ (findAll2 .anywhere taskPat2 t).map mkAssignedTask)
          ++ (findAll2 .anywhere taskPat3 t).map mkAssignedTask).take 10 := by
  unfold extract_tasks_pattern_based
  rw [foldl_append_map, foldl_append_map, foldl_append_map]
  simp

/-- Field invariant of every task dictionary produced by the fallback
task extractor: all five `TaskItem` fields present, `due_date` the
sentinel, `priority` exactly `medium`, and `status` either `assigned`
or `discussed` with the `Not specified` assignee. -/
def c10TaskOk (tv : JVal) : Bool :=
  match tv with
  | .obj [("task", .str _), ("assignee", .str a), ("due_date", .str dd),
          ("priority", .str pr), ("status", .str st)] =>
      dd == "Not specified" && pr == "medium"
        && (st == "assigned" || (st == "discussed" && a == "Not specified"))
  | _ => false

/-- C10: every task produced by the fallback pattern-based task
extractor carries all five TaskItem fields with priority always
`medium`, due_date always `Not specified`, and status `assigned`
exactly for the tasks built from an assignee-binding two-group match
(patterns 2 and 3) and `discussed` with assignee `Not specified` for
the one-group matches of pattern 1; at most 10 tasks are returned. -/
theorem claim_C10_theorem (t : String) :
    (extract_tasks_pattern_based t).length ≤ 10
    ∧ (∀ tv ∈ extract_tasks_pattern_based t, c10TaskOk tv = true)
    ∧ (∀ tv ∈ extract_tasks_pattern_based t,
        (∃ m ∈ findAll1 .anywhere taskPat1 t, tv = mkDiscussedTask m)
        ∨ (∃ p, (p ∈ findAll2 .anywhere taskPat2 t ∨ p ∈ findAll2 .anywhere taskPat3 t)
            ∧ tv = mkAssignedTask p)) := by
  rw [extract_tasks_eq]
  refine ⟨List.length_take_le _ _, ?_, ?_⟩
  · intro tv htv
    have htv2 := List.mem_of_mem_take htv
    rcases List.mem_append.mp htv2 with h | h
    · rcases List.mem_append.mp h with h | h
      · rcases List.mem_map.mp h with ⟨m, _, rfl⟩
        rfl
      · rcases List.mem_map.mp h with ⟨p, _, rfl⟩
        rfl
    · rcases List.mem_map.mp h with ⟨p, _, rfl⟩
      rfl
  · intro tv htv
    have htv2 := List.mem_of_mem_take htv
    rcases List.mem_append.mp htv2 with h | h
    · rcases List.mem_append.mp h with h | h
      · rcases List.mem_map.mp h with ⟨m, hm, rfl⟩
        exact Or.inl ⟨m, hm, rfl⟩
      · rcases List.mem_map.mp h with ⟨p, hp, rfl⟩
        exact Or.inr ⟨p, Or.inl hp, rfl⟩
    · rcases List.mem_map.mp h with ⟨p, hp, rfl⟩
      exact Or.inr ⟨p, Or.inr hp, rfl⟩

/-- C8 counterexample: on the transcript `"decided: abcdefghij."` the
decision pattern captures the 10-character clause `"abcdefghij"`, which
the claim says is kept (10 characters or longer), yet the code keeps
only strictly-greater-than-10-character clauses and returns nothing. -/
theorem claim_C8_counterexample :
    decisionCaptures "decided: abcdefghij." = ["abcdefghij"]
    ∧ (pyStrip "abcdefghij").length = 10
    ∧ extract_decisions "decided: abcdefghij." = [] := by
  refine ⟨by decide, by decide, by decide⟩

/-- C8 (amended): `extract_decisions` strips each captured clause,
discards it unless its length strictly exceeds 10 characters, keeps the
rest in capture order, and caps the result at 5 decisions. -/
theorem claim_C8_theorem (t : String) :
    extract_decisions t
      = (((decisionCaptures t).map pyStrip).filter fun d => 10 < d.length).take 5
    ∧ (extract_decisions t).length ≤ 5
    ∧ ∀ d ∈ extract_decisions t, 10 < d.length := by
  refine ⟨extract_decisions_eq t, ?_, ?_⟩
  · rw [extract_decisions_eq]
    exact List.length_take_le _ _
  · intro d hd
    rw [extract_decisions_eq] at hd
    have hd2 := List.mem_of_mem_take hd
    have := (List.mem_filter.mp hd2).2
    exact of_decide_eq_true this

/-- C9: the fallback extraction pipeline is deterministic — the
participants, tasks, key decisions and topics fields of the
pattern-based analysis result depend only on the transcript text, not
on the invocation timestamp (the only per-invocation input). -/
theorem claim_C9_theorem (t ts1 ts2 : String) :
    pyGet (analyze_meeting_transcript t ts1) "participants" .null
      = pyGet (analyze_meeting_transcript t ts2) "participants" .null
    ∧ pyGet (analyze_meeting_transcript t ts1) "tasks" .null
      = pyGet (analyze_meeting_transcript t ts2) "tasks" .null
    ∧ pyGet (analyze_meeting_transcript t ts1) "key_decisions" .null
      = pyGet (analyze_meeting_transcript t ts2) "key_decisions" .null
    ∧ pyGet (analyze_meeting_transcript t ts1) "topics_discussed" .null
      = pyGet (analyze_meeting_transcript t ts2) "topics_discussed" .null := by
  exact ⟨rfl, rfl, rfl, rfl⟩

/-! ## Analysis orchestrator (`meeting_processor.py`, class
`MeetingTranscriptProcessor`) -/

/-- The character `\x7b`. -/
def lbrace : Char := Char.ofNat 123

/-- The character `\x7d`. -/
def rbrace : Char := Char.ofNat 125

/-- Drop everything after the last `\x7d` of the list (greedy `.*` under
`re.DOTALL`). -/
def keepToLastRBrace (l : List Char) : List Char :=
  (l.reverse.dropWhile fun c => c != rbrace).reverse

/-- Model of `re.search(r'\x7b.*\x7d', s, re.DOTALL)`: the match starts at
the leftmost `\x7b` followed (anywhere later) by a `\x7d` and extends
greedily to the last `\x7d` of the string. -/
def jsonSearchAux : List Char → Option (List Char)
  | [] => none
  | c :: rest =>
    if c = lbrace then
      if rest.contains rbrace then some (c :: keepToLastRBrace rest)
      else jsonSearchAux rest
    else jsonSearchAux rest

/-- Whitespace skipped by the JSON parser. -/
def jskipWs : List Char → List Char
  | c :: rest =>
    if c = ' ' || c = '\t' || c = '\n' || c = '\r' then jskipWs rest else c :: rest
  | [] => []

/-- JSON string body up to the closing quote (the inputs in scope
contain no escape sequences; a backslash makes the parse fail). -/
def jparseStringAux : List Char → Option (List Char × List Char)
  | [] => none
  | c :: rest =>
    if c = '"' then some ([], rest)
    else if c = '\\' then none
    else match jparseStringAux rest with
      | some (s, r) => some (c :: s, r)
      | none => none

/-- Digit accumulation for the JSON number parser. -/
def jparseNumAux : Nat → List Char → Nat × List Char
  | acc, c :: rest =>
    if '0' ≤ c && c ≤ '9' then jparseNumAux (acc * 10 + (c.toNat - 48)) rest
    else (acc, c :: rest)
  | acc, [] => (acc, [])

mutual

/-- Model of Python `json.loads` restricted to the value grammar the
replies in scope use: objects, arrays, double-quoted escape-free
strings, integers, `true`, `false`, `null`.  Fuel-driven; the fuel is
chosen so it never runs out on inputs it accepts. -/
def jparseVal : Nat → List Char → Option (JVal × List Char)
  | 0, _ => none
  | fuel + 1, s =>
    match jskipWs s with
    | '"' :: rest =>
      match jparseStringAux rest with
      | some (cs, r) => some (.str ⟨cs⟩, r)
      | none => none
    | 't' :: 'r' :: 'u' :: 'e' :: r => some (.boolean true, r)
    | 'f' :: 'a' :: 'l' :: 's' :: 'e' :: r => some (.boolean false, r)
    | 'n' :: 'u' :: 'l' :: 'l' :: r => some (.null, r)
    | '-' :: c :: rest =>
      if '0' ≤ c && c ≤ '9' then
        let p := jparseNumAux (c.toNat - 48) rest
        some (.num (-(p.1 : Int)), p.2)
      else none
    | '[' :: rest =>
      match jskipWs rest with
      | ']' :: r => some (.arr [], r)
      | rest2 => (jparseItems fuel rest2).map fun p => (.arr p.1, p.2)
    | c :: rest =>
      if c = lbrace then
        match jskipWs rest with
        | c2 :: r =>
          if c2 = rbrace then some (.obj [], r)
          else (jparseFields fuel (c2 :: r)).map fun p => (.obj p.1, p.2)
        | [] => none
      else if '0' ≤ c && c ≤ '9' then
        let p := jparseNumAux (c.toNat - 48) rest
        some (.num (p.1 : Int), p.2)
      else none
    | [] => none

/-- Comma-separated array items followed by `]`. -/
def jparseItems : Nat → List Char → Option (List JVal × List Char)
  | 0, _ => none
  | fuel + 1, s =>
    match jparseVal fuel s with
    | some (v, r) =>
      match jskipWs r with
      | ',' :: r2 =>
        match jparseItems fuel r2 with
        | some (vs, r3) => some (v :: vs, r3)
        | none => none
      | ']' :: r2 => some ([v], r2)
      | _ => none
    | none => none

/-- Comma-separated `"key": value` fields followed by `\x7d`. -/
def jparseFields : Nat → List Char → Option (List (String × JVal) × List Char)
  | 0, _ => none
  | fuel + 1, s =>
    match jskipWs s with
    | '"' :: rest =>
      match jparseStringAux rest with
      | some (k, r) =>
        match jskipWs r with
        | ':' :: r2 =>
          match jparseVal fuel r2 with
          | some (v, r3) =>
            match jskipWs r3 with
            | ',' :: r4 =>
              match jparseFields fuel r4 with
              | some (fs, r5) => some ((⟨k⟩, v) :: fs, r5)
              | none => none
            | c :: r4 =>
              if c = rbrace then some ([(⟨k⟩, v)], r4) else none
            | [] => none
          | none => none
        | _ => none
      | none => none
    | _ => none

end

/-- Model of `json.loads`, requiring the whole string to be consumed
(modulo trailing whitespace). -/
def pyLoads (s : String) : Option JVal :=
  match jparseVal (s.data.length + 2) s.data with
  | some (v, rest) => if (jskipWs rest).isEmpty then some v else none
  | none => none

/-- Python iteration over a value: lists yield their items, strings
their characters (as one-character strings), dicts their keys; other
values raise `TypeError` (`none`). -/
def pyIterItems : JVal → Option (List JVal)
  | .arr xs => some xs
  | .str s => some (s.data.map fun c => .str ⟨[c]⟩)
  | .obj fs => some (fs.map fun kv => .str kv.1)
  | _ => none

/-- The per-task normalisation of `_validate_result_structure`: dicts
keep their fields with defaults for the missing ones, strings become a
fully-defaulted task, anything else is skipped (no branch in the
source). -/
def validateTask : JVal → Option JVal
  | .obj fs => some (.obj [("task", pyGet fs "task" (.str "")),
      ("assignee", pyGet fs "assignee" (.str "Not specified")),
      ("due_date", pyGet fs "due_date" (.str "Not specified")),
      ("priority", pyGet fs "priority" (.str "medium")),
      ("status", pyGet fs "status" (.str "discussed"))])
  | .str s => some (.obj [("task", .str s), ("assignee", .str "Not specified"),
      ("due_date", .str "Not specified"), ("priority", .str "medium"),
      ("status", .str "discussed")])
  | _ => none

/-- Model of `_validate_result_structure`.  An `.error` models the
`TypeError` raised when the truthy `tasks` value is not iterable; it
propagates past the `json.JSONDecodeError` handler to the caller. -/
def validate_result_structure (result : PyDict) : Except String PyDict :=
  let validated : PyDict :=
    [("summary", pyGet result "summary" (.str "")),
     ("participants", pyGet result "participants" (.arr [])),
     ("key_decisions", pyGet result "key_decisions" (.arr [])),
     ("tasks", pyGet result "tasks" (.arr [])),
     ("action_items", pyGet result "action_items" (.arr [])),
     ("next_meeting", pyGet result "next_meeting" (.str "Not specified")),
     ("topics_discussed", pyGet result "topics_discussed" (.arr []))]
  let tasks := pyGet result "tasks" (.arr [])
  if pyTruthy tasks then
    match pyIterItems tasks with
    | some items => .ok (pySet validated "tasks" (.arr (items.filterMap validateTask)))
    | none => .error "TypeError: argument of type is not iterable"
  else .ok validated

/-- Model of `_parse_ai_response`: find the first brace-delimited
candidate; on success parse it and validate (a non-dict parse makes the
subsequent `.get` raise `AttributeError`, modelled as `.error`); a parse
failure is the `json.JSONDecodeError` branch; no candidate yields the
minimal synthesized record with a truncated summary. -/
def parse_ai_response (ai_response : String) : Except String PyDict :=
  match jsonSearchAux ai_response.data with
  | some json_str =>
    match pyLoads ⟨json_str⟩ with
    | some (.obj fs) => validate_result_structure fs
    | some _ => .error "AttributeError: object has no attribute get"
    | none =>
      .ok [("error", .str "Failed to parse AI response as JSON"),
           ("raw_response", .str ai_response),
           ("summary", .str "Error processing transcript"),
           ("participants", .arr []),
           ("key_decisions", .arr []),
           ("tasks", .arr []),
           ("action_items", .arr []),
           ("next_meeting", .str "Not specified"),
           ("topics_discussed", .arr [])]
  | none =>
    .ok [("summary", .str (if 500 < ai_response.length
            then (⟨ai_response.data.take 500⟩ : String) ++ "..." else ai_response)),
         ("participants", .arr []),
         ("key_decisions", .arr []),
         ("tasks", .arr []),
         ("action_items", .arr []),
         ("next_meeting", .str "Not specified"),
         ("topics_discussed", .arr [])]

/-- Outcome of the external generation call (`bedrock.converse`):
a reply containing output text, a response with no usable output, or a
raised exception. -/
inductive BedrockOutcome where
  | reply (s : String)
  | noOutput
  | raised (msg : String)

/-- The non-deterministic environment of one
`process_meeting_transcript` call: liveness of the side-channel MCP
process, success of starting it and of initialising its client, and the
generation capability as a function from prompt to outcome. -/
structure OrchestratorEnv where
  mcp_running : Bool
  start_ok : Bool
  client_ready : Bool
  init_ok : Bool
  bedrock : String → BedrockOutcome

/-- Model of `_call_bedrock`: all failures are converted to error
strings, so the call itself never raises to the caller. -/
def call_bedrock (outcome : BedrockOutcome) : String :=
  match outcome with
  | .reply s => s
  | .noOutput => "Error: No response from Bedrock"
  | .raised msg => "Error calling Bedrock: " ++ msg

/-- The instruction block prepended when prior-meeting context is
non-empty (`_create_analysis_prompt`, the `context_section`
f-string). -/
def contextSectionOf (context : String) : String :=
  if context != "" then
    "\n" ++ context
    ++ "\n\nIMPORTANT: When analyzing the current meeting transcript below, please:\n"
    ++ "- Reference previous action items and their current status\n"
    ++ "- Update task statuses based on progress mentioned in the current meeting\n"
    ++ "- Mark completed tasks as \"completed\" in the status field\n"
    ++ "- Note any follow-up tasks that build on previous work\n"
    ++ "- Ensure continuity in task tracking across meetings\n\n"
  else ""

/-- Model of `_create_analysis_prompt`. -/
def create_analysis_prompt (transcript context : String) : String :=
  "\n" ++ contextSectionOf context
  ++ "Please analyze the following meeting transcript and extract the key information in a structured JSON format.\n"
  ++ "\nMeeting Transcript:\n" ++ transcript ++ "\n"
  ++ "\nPlease provide your analysis in the following JSON structure:\n"
  ++ "\x7b\n"
  ++ "    \"summary\": \"A concise 2-3 sentence summary of the meeting\",\n"
  ++ "    \"participants\": [\"List of participant names mentioned\"],\n"
  ++ "    \"key_decisions\": [\"List of key decisions made during the meeting\"],\n"
  ++ "    \"tasks\": [\n"
  ++ "        \x7b\n"
  ++ "            \"task\": \"Description of the task\",\n"
  ++ "            \"assignee\": \"Person assigned (if mentioned)\",\n"
  ++ "            \"due_date\": \"Due date (if mentioned)\",\n"
  ++ "            \"priority\": \"high/medium/low\",\n"
  ++ "            \"status\": \"assigned/pending/discussed/completed/in-progress\"\n"
  ++ "        \x7d\n"
  ++ "    ],\n"
  ++ "    \"action_items\": [\"List of specific action items\"],\n"
  ++ "    \"next_meeting\": \"Next meeting date/time if mentioned\",\n"
  ++ "    \"topics_discussed\": [\"Main topics covered in the meeting\"]\n"
  ++ "\x7d\n"
  ++ "\nFocus on extracting concrete, actionable tasks and clear decisions. If information is not explicitly mentioned, use \"Not specified\" or leave empty arrays as appropriate.\n"
  ++ (if context != "" then
        "Remember to track progress on previously assigned tasks and update their status based on the current meeting discussion."
      else "")
  ++ "\n"

/-- The dictionary returned by the `except` handlers of
`process_meeting_transcript` and `_process_transcript_direct` (both
build the same five-key shape, in the same order). -/
def processErrorDict (msg : String) : PyDict :=
  [("error", .str ("Failed to process transcript: " ++ msg)),
   ("summary", .str ""),
   ("tasks", .arr []),
   ("participants", .arr []),
   ("key_decisions", .arr [])]

/-- The `try`/`except` wrapper shared by `process_meeting_transcript`
and `_process_transcript_direct`: a propagated exception becomes the
five-key error dictionary. -/
def exceptToErrorDict (res : Except String PyDict) : PyDict :=
  match res with
  | .ok r => r
  | .error e => processErrorDict e

/-- Model of `_process_transcript_direct`: build the prompt, call the
generation capability, parse; any exception escaping the parse becomes
the five-key error dictionary. -/
def process_transcript_direct (transcript context : String) (env : OrchestratorEnv) : PyDict :=
  exceptToErrorDict
    (parse_ai_response (call_bedrock (env.bedrock (create_analysis_prompt transcript context))))

/-- Model of `process_meeting_transcript`: if the MCP process is not
alive and cannot be started, or the MCP client cannot be initialised,
fall back to `_process_transcript_direct`; otherwise run the same
prompt/generate/parse pipeline under the outer `except` handler. -/
def process_meeting_transcript (transcript context : String) (env : OrchestratorEnv) : PyDict :=
  if !env.mcp_running && !env.start_ok then
    process_transcript_direct transcript context env
  else if !env.client_ready && !env.init_ok then
    process_transcript_direct transcript context env
  else
    exceptToErrorDict
      (parse_ai_response (call_bedrock (env.bedrock (create_analysis_prompt transcript context))))

/-! ## MeetingRecord schema predicates and shape lemmas -/

/-- All seven MeetingRecord fields are present. -/
def hasMeetingRecordKeys (d : PyDict) : Bool :=
  (d.lookup "summary").isSome && (d.lookup "participants").isSome
    && (d.lookup "key_decisions").isSome && (d.lookup "tasks").isSome
    && (d.lookup "action_items").isSome && (d.lookup "next_meeting").isSome
    && (d.lookup "topics_discussed").isSome

/-- A task dictionary carries all five TaskItem fields. -/
def taskFiveFieldsOk (tv : JVal) : Bool :=
  match tv with
  | .obj fs =>
    (fs.lookup "task").isSome && (fs.lookup "assignee").isSome
      && (fs.lookup "due_date").isSome && (fs.lookup "priority").isSome
      && (fs.lookup "status").isSome
  | _ => false

/-- The `tasks` field is present and, whenever it is truthy, is a list
whose entries all carry the five TaskItem fields. -/
def tasksFieldOk (d : PyDict) : Bool :=
  match d.lookup "tasks" with
  | some v =>
    !pyTruthy v || (match v with | .arr ts => ts.all taskFiveFieldsOk | _ => false)
  | none => false

/-- A task dictionary satisfies the full TaskItem schema of the claim:
five fields present with `priority` and `status` drawn from the allowed
sets. -/
def taskSchemaOk (tv : JVal) : Bool :=
  match tv with
  | .obj fs =>
    (fs.lookup "task").isSome && (fs.lookup "assignee").isSome
      && (fs.lookup "due_date").isSome
      && (match fs.lookup "priority" with
          | some (.str p) => p == "high" || p == "medium" || p == "low"
          | _ => false)
      && (match fs.lookup "status" with
          | some (.str st) => st == "assigned" || st == "pending" || st == "discussed"
              || st == "completed" || st == "in-progress"
          | _ => false)
  | _ => false

/-- The full MeetingRecord schema of claim C1: all seven fields present
and `tasks` a list of schema-conformant task dictionaries. -/
def meetingRecordOk (d : PyDict) : Bool :=
  hasMeetingRecordKeys d &&
  (match d.lookup "tasks" with
   | some (.arr ts) => ts.all taskSchemaOk
   | _ => false)

/-- Every task surviving `validateTask` carries the five fields. -/
theorem validateTask_fiveFields (items : List JVal) :
    ((items.filterMap validateTask).all taskFiveFieldsOk) = true := by
  rw [List.all_eq_true]
  intro x hx
  rcases List.mem_filterMap.mp hx with ⟨a, _, ha⟩
  cases a
  case str s =>
    simp only [validateTask, Option.some.injEq] at ha
    subst ha; rfl
  case obj fs =>
    simp only [validateTask, Option.some.injEq] at ha
    subst ha; rfl
  all_goals simp [validateTask] at ha

/-- Shape invariant of `_validate_result_structure`: a successful
validation yields all seven MeetingRecord keys, and a truthy `tasks`
value has been rebuilt as a list of five-field task dictionaries. -/
theorem validate_result_structure_shape (fs : PyDict) (d : PyDict)
    (h : validate_result_structure fs = .ok d) :
    hasMeetingRecordKeys d = true ∧ tasksFieldOk d = true := by
  simp only [validate_result_structure] at h
  split at h
  · rename_i htr
    split at h
    · rename_i items hitems
      rw [Except.ok.injEq] at h
      subst h
      constructor
      · simp [pySet, hasMeetingRecordKeys, List.lookup]
      · have hall := validateTask_fiveFields items
        simp only [pySet, tasksFieldOk, List.lookup]
        simp only [show (("tasks" : String) = "summary") = False by simp,
          show (("tasks" : String) = "participants") = False by simp,
          show (("tasks" : String) = "key_decisions") = False by simp,
          show (("tasks" : String) = "tasks") = True by simp,
          show (("tasks" : String) == "summary") = false from rfl,
          show (("tasks" : String) == "participants") = false from rfl,
          show (("tasks" : String) == "key_decisions") = false from rfl,
          show (("tasks" : String) == "tasks") = true from rfl,
          if_true, if_false, ite_true, ite_false]
        rw [hall]
        simp
    · exact absurd h (by simp)
  · rename_i htr
    rw [Except.ok.injEq] at h
    subst h
    constructor
    · simp [hasMeetingRecordKeys, List.lookup]
    · simp only [tasksFieldOk, List.lookup]
      simp only [show (("tasks" : String) == "summary") = false from rfl,
        show (("tasks" : String) == "participants") = false from rfl,
        show (("tasks" : String) == "key_decisions") = false from rfl,
        show (("tasks" : String) == "tasks") = true from rfl]
      simp [Bool.not_eq_true] at htr
      simp [htr]

/-- Shape invariant of `_parse_ai_response`: every dictionary it
returns (rather than raising) has the seven MeetingRecord keys and a
well-formed `tasks` field. -/
theorem parse_ai_response_shape (s : String) (d : PyDict)
    (h : parse_ai_response s = .ok d) :
    hasMeetingRecordKeys d = true ∧ tasksFieldOk d = true := by
  unfold parse_ai_response at h
  split at h
  · split at h
    · exact validate_result_structure_shape _ _ h
    · exact absurd h (by simp)
    · rw [Except.ok.injEq] at h
      subst h
      exact ⟨by simp [hasMeetingRecordKeys, List.lookup], by simp [tasksFieldOk, List.lookup, pyTruthy]⟩
  · rw [Except.ok.injEq] at h
    subst h
    exact ⟨by simp [hasMeetingRecordKeys, List.lookup], by simp [tasksFieldOk, List.lookup, pyTruthy]⟩

/-- The orchestrator entry point always reduces to the direct pipeline:
all three branches run the same prompt/generate/parse computation. -/
theorem process_eq_direct (transcript context : String) (env : OrchestratorEnv) :
    process_meeting_transcript transcript context env
      = process_transcript_direct transcript context env := by
  unfold process_meeting_transcript process_transcript_direct
  split
  · rfl
  · split <;> rfl

/-- Environment for the C1 counterexample: the side channel is up and
the generation capability replies with a JSON object whose task carries
an out-of-range priority. -/
def c1Env : OrchestratorEnv :=
  { mcp_running := true, start_ok := true, client_ready := true, init_ok := true,
    bedrock := fun _ => .reply "\x7b\"tasks\": [\x7b\"task\": \"x\", \"priority\": \"urgent\"\x7d]\x7d" }

/-- C1 counterexample: for the non-empty transcript `"hello"` and a
generation reply whose task has priority `"urgent"`, the orchestrator
returns a record violating the MeetingRecord schema — the validator
only defaults missing `priority`/`status` fields and never checks their
values against the allowed sets. -/
theorem claim_C1_counterexample :
    ("hello" : String) ≠ ""
    ∧ meetingRecordOk (process_meeting_transcript "hello" "" c1Env) = false := by
  exact ⟨by decide, by decide⟩

/-- C1 (amended): every result of `process_meeting_transcript` either
carries all seven MeetingRecord fields with a `tasks` field that, when
truthy, is a list of task dictionaries carrying all five TaskItem
fields (`priority`/`status` defaulted when absent but not validated
against the allowed value sets), or is the reduced five-key error
dictionary of the exception handlers (which lacks `action_items`,
`next_meeting` and `topics_discussed`). -/
theorem claim_C1_theorem (transcript context : String) (env : OrchestratorEnv) :
    (hasMeetingRecordKeys (process_meeting_transcript transcript context env) = true
      ∧ tasksFieldOk (process_meeting_transcript transcript context env) = true)
    ∨ (∃ e, process_meeting_transcript transcript context env = processErrorDict e) := by
  rw [process_eq_direct]
  unfold process_transcript_direct exceptToErrorDict
  split
  · rename_i r hr
    exact Or.inl (parse_ai_response_shape _ _ hr)
  · rename_i e he
    exact Or.inr ⟨e, rfl⟩

/-- Environment for the C2 counterexample: the side-channel process is
down and cannot be started, and the generation capability replies with
plain prose. -/
def c2Env : OrchestratorEnv :=
  { mcp_running := false, start_ok := false, client_ready := false, init_ok := false,
    bedrock := fun _ => .reply "no json here" }

/-- The transcript used in the C2 counterexample. -/
def c2Transcript : String :=
  "John: We decided to ship Friday. Sarah will write the release notes by Thursday."

/-- C2 counterexample: with the side channel unavailable the
orchestrator does not fall back to the pattern-based extractor — it
still calls the generation capability directly and parses its reply
(here: a minimal record echoing the prose reply, with no participants),
whereas the pattern-based extractor applied to the same raw transcript
produces participant `"John"`. -/
theorem claim_C2_counterexample :
    pyGet (process_meeting_transcript c2Transcript "" c2Env) "summary" .null = .str "no json here"
    ∧ pyGet (process_meeting_transcript c2Transcript "" c2Env) "participants" .null = .arr []
    ∧ pyGet (analyze_meeting_transcript c2Transcript "") "participants" .null
        = .arr [.str "John"] := by
  exact ⟨rfl, rfl, rfl⟩

/-- C2 (amended): on every path — side channel running, failing to
start, or failing to initialise its client — the orchestrator returns
the result of `_process_transcript_direct`, i.e. the parse of a direct
generation call on the same prompt (with exceptions mapped to the
five-key error dictionary); the deterministic pattern-based extractor
of `mcp_server.py` is never invoked. -/
theorem claim_C2_theorem (transcript context : String) (env : OrchestratorEnv) :
    process_meeting_transcript transcript context env
      = process_transcript_direct transcript context env
    ∧ process_transcript_direct transcript context env
      = exceptToErrorDict
          (parse_ai_response (call_bedrock (env.bedrock (create_analysis_prompt transcript context)))) := by
  exact ⟨process_eq_direct transcript context env, rfl⟩

/-- The generation reply of the C5 counterexample: 501 characters of
prose with no brace-delimited JSON candidate. -/
def c5Reply : String := ⟨List.replicate 501 'a'⟩

/-- The summary the parser actually synthesizes for `c5Reply`: the
first 500 characters followed by a three-character ellipsis marker —
503 characters, not a truncation to 500. -/
def c5Summary : String := (⟨List.replicate 500 'a'⟩ : String) ++ "..."

/-- C5 counterexample: for a 501-character reply with no JSON object
the synthesized summary is the 500-character cut plus `"..."`, which is
neither the truncation of the reply to 500 characters nor the reply
itself. -/
theorem claim_C5_counterexample :
    pyGet (exceptToErrorDict (parse_ai_response c5Reply)) "summary" .null = .str c5Summary
    ∧ c5Summary ≠ (⟨c5Reply.data.take 500⟩ : String)
    ∧ ¬ (c5Reply.length ≤ 500) := by
  exact ⟨rfl, by decide, by decide⟩

/-- No `\x7b` followed by a later `\x7d` occurs in the string, so the
brace search of `_parse_ai_response` finds no candidate. -/
def NoJsonCandidate (s : String) : Prop :=
  ∀ i j : Nat, i < j → s.data[i]? = some lbrace → s.data[j]? = some rbrace → False

/-- The brace search returns nothing exactly on inputs with no
brace-delimited candidate. -/
theorem jsonSearchAux_eq_none (l : List Char)
    (h : ∀ i j : Nat, i < j → l[i]? = some lbrace → l[j]? = some rbrace → False) :
    jsonSearchAux l = none := by
  induction l with
  | nil => rfl
  | cons c rest ih =>
    unfold jsonSearchAux
    by_cases hc : c = lbrace
    · have hcontains : rest.contains rbrace = false := by
        by_contra hcon
        rw [Bool.not_eq_false, List.contains_eq_any_beq, List.any_eq_true] at hcon
        rcases hcon with ⟨a, ha, hab⟩
        rw [beq_iff_eq] at hab
        subst hab
        rcases List.getElem?_of_mem ha with ⟨j, hj⟩
        exact h 0 (j + 1) (Nat.succ_pos j) (by simp [hc]) (by simpa using hj)
      subst hc
      rw [if_pos rfl, if_neg (by rw [hcontains]; exact Bool.false_ne_true)]
      refine ih ?_
      intro i j hij hi hj
      exact h (i + 1) (j + 1) (by omega) (by simpa using hi) (by simpa using hj)
    · rw [if_neg hc]
      refine ih ?_
      intro i j hij hi hj
      exact h (i + 1) (j + 1) (by omega) (by simpa using hi) (by simpa using hj)

/-- A string without `\x7b` has no candidate at all. -/
theorem noJsonCandidate_of_no_lbrace (s : String) (h : lbrace ∉ s.data) :
    NoJsonCandidate s := by
  unfold NoJsonCandidate
  intro i j _ hi _
  exact h (List.getElem?_mem hi)

/-- C5 (amended): for every generation reply in which the brace search
finds no candidate, the parser synthesizes the minimal record whose
summary is the reply itself when it is at most 500 characters, and the
first 500 characters followed by `"..."` otherwise, with all other
fields empty or defaulted. -/
theorem claim_C5_theorem (reply : String) (h : NoJsonCandidate reply) :
    parse_ai_response reply = .ok
      [("summary", .str (if 500 < reply.length
           then (⟨reply.data.take 500⟩ : String) ++ "..." else reply)),
       ("participants", .arr []),
       ("key_decisions", .arr []),
       ("tasks", .arr []),
       ("action_items", .arr []),
       ("next_meeting", .str "Not specified"),
       ("topics_discussed", .arr [])] := by
  unfold parse_ai_response
  rw [jsonSearchAux_eq_none reply.data h]

/-- C5 witness: the claim theorem applied to the concrete five-character
reply `"hello"`. -/
theorem claim_C5_witness :
    parse_ai_response "hello" = .ok
      [("summary", .str "hello"),
       ("participants", .arr []),
       ("key_decisions", .arr []),
       ("tasks", .arr []),
       ("action_items", .arr []),
       ("next_meeting", .str "Not specified"),
       ("topics_discussed", .arr [])] := by
  exact claim_C5_theorem "hello" (noJsonCandidate_of_no_lbrace "hello" (by decide))

/-! ## History store (`team_storage.py`, class `TeamSummaryManager`) -/

/-- Naive `datetime.datetime` values at microsecond resolution. -/
structure PyDateTime where
  year : Nat
  month : Nat
  day : Nat
  hour : Nat
  minute : Nat
  second : Nat
  micro : Nat
deriving DecidableEq, Repr

/-- Calendar validity (year restricted to four strftime digits). -/
def PyDateTime.valid (t : PyDateTime) : Prop :=
  1000 ≤ t.year ∧ t.year ≤ 9999 ∧ 1 ≤ t.month ∧ t.month ≤ 12 ∧ 1 ≤ t.day ∧ t.day ≤ 31
    ∧ t.hour ≤ 23 ∧ t.minute ≤ 59 ∧ t.second ≤ 59 ∧ t.micro ≤ 999999

instance (t : PyDateTime) : Decidable t.valid := by
  unfold PyDateTime.valid; infer_instance

/-- Python `datetime` comparison: lexicographic on all components down
to microseconds. -/
def dtLtB (a b : PyDateTime) : Bool :=
  if a.year ≠ b.year then a.year < b.year
  else if a.month ≠ b.month then a.month < b.month
  else if a.day ≠ b.day then a.day < b.day
  else if a.hour ≠ b.hour then a.hour < b.hour
  else if a.minute ≠ b.minute then a.minute < b.minute
  else if a.second ≠ b.second then a.second < b.second
  else a.micro < b.micro

/-- Strictly-later at second resolution (the resolution of the
generated filenames). -/
def dtLtSec (a b : PyDateTime) : Prop :=
  a.year < b.year ∨ (a.year = b.year ∧ (a.month < b.month ∨ (a.month = b.month
    ∧ (a.day < b.day ∨ (a.day = b.day ∧ (a.hour < b.hour ∨ (a.hour = b.hour
    ∧ (a.minute < b.minute ∨ (a.minute = b.minute ∧ a.second < b.second)))))))))

instance (a b : PyDateTime) : Decidable (dtLtSec a b) := by
  unfold dtLtSec; infer_instance

/-- Gregorian leap year. -/
def isLeap (y : Nat) : Bool := (y % 4 = 0 && y % 100 ≠ 0) || y % 400 = 0

/-- Days in a month. -/
def daysInMonth (y m : Nat) : Nat :=
  if m = 2 then (if isLeap y then 29 else 28)
  else if m = 4 || m = 6 || m = 9 || m = 11 then 30 else 31

/-- Model of `now - timedelta(minutes=1)` on valid datetimes (seconds
and microseconds preserved, borrowing through hour/day/month/year). -/
def subMinute (t : PyDateTime) : PyDateTime :=
  if 1 ≤ t.minute then { t with minute := t.minute - 1 }
  else if 1 ≤ t.hour then { t with hour := t.hour - 1, minute := 59 }
  else if 2 ≤ t.day then { t with day := t.day - 1, hour := 23, minute := 59 }
  else if 2 ≤ t.month then
    { t with month := t.month - 1, day := daysInMonth t.year (t.month - 1), hour := 23, minute := 59 }
  else { t with year := t.year - 1, month := 12, day := 31, hour := 23, minute := 59 }

/-- The decimal digit characters. -/
def digitChar (d : Nat) : Char :=
  match d with
  | 0 => '0' | 1 => '1' | 2 => '2' | 3 => '3' | 4 => '4'
  | 5 => '5' | 6 => '6' | 7 => '7' | 8 => '8' | _ => '9'

/-- Zero-padded `k`-digit decimal rendering (the strftime field
formats `%Y`, `%m`, `%d`, `%H`, `%M`, `%S` and isoformat `%f`). -/
def padDigits : Nat → Nat → List Char
  | 0, _ => []
  | k + 1, n => padDigits k (n / 10) ++ [digitChar (n % 10)]

/-- Value of a digit character. -/
def digitVal (c : Char) : Nat := c.toNat - 48

/-- Digit test used by the iso parser. -/
def isDigitCh (c : Char) : Bool := '0' ≤ c && c ≤ '9'

/-- `strftime("%Y%m%d_%H%M%S")`. -/
def datetimeStrChars (t : PyDateTime) : List Char :=
  padDigits 4 t.year ++ (padDigits 2 t.month ++ (padDigits 2 t.day
    ++ ('_' :: (padDigits 2 t.hour ++ (padDigits 2 t.minute ++ padDigits 2 t.second)))))

/-- Python string comparison (`<` on strings: lexicographic by code
point, a strict prefix is smaller). -/
def strLexLt : List Char → List Char → Bool
  | [], [] => false
  | [], _ :: _ => true
  | _ :: _, [] => false
  | a :: as, b :: bs => if a < b then true else if b < a then false else strLexLt as bs

/-- Normalisation of one character of a team identifier
(`team_id.lower().replace(" ", "_")`, ASCII). -/
def normalizeTeamChar (c : Char) : Char :=
  if c.toLower = ' ' then '_' else c.toLower

/-- The storage key of a team identifier. -/
def normalizeTeamKey (team : String) : List Char := team.data.map normalizeTeamChar

/-- Model of `_generate_filename`. -/
def generate_filename (team : String) (date : PyDateTime) : List Char :=
  normalizeTeamKey team ++ ('_' :: (datetimeStrChars date ++ ".json".data))

/-- `datetime.isoformat()`: `YYYY-MM-DDTHH:MM:SS` with a `.ffffff`
fraction exactly when the microsecond field is non-zero. -/
def isoChars (t : PyDateTime) : List Char :=
  padDigits 4 t.year ++ ('-' :: (padDigits 2 t.month ++ ('-' :: (padDigits 2 t.day
    ++ ('T' :: (padDigits 2 t.hour ++ (':' :: (padDigits 2 t.minute
    ++ (':' :: (padDigits 2 t.second
    ++ (if t.micro = 0 then [] else '.' :: padDigits 6 t.micro)))))))))))

/-- Model of `str.replace('Z', '+00:00')` (single-character pattern). -/
def replaceZ : List Char → List Char
  | [] => []
  | c :: rest => (if c = 'Z' then "+00:00".data else [c]) ++ replaceZ rest

/-- Model of `datetime.fromisoformat` on the shapes produced by
`isoformat()` of naive datetimes; anything else fails (`ValueError`). -/
def parseIso (l : List Char) : Option PyDateTime :=
  match l with
  | y1 :: y2 :: y3 :: y4 :: '-' :: m1 :: m2 :: '-' :: d1 :: d2 :: 'T' :: h1 :: h2 :: ':'
      :: n1 :: n2 :: ':' :: s1 :: s2 :: rest =>
    if [y1, y2, y3, y4, m1, m2, d1, d2, h1, h2, n1, n2, s1, s2].all isDigitCh then
      let base : PyDateTime :=
        { year := ((digitVal y1 * 10 + digitVal y2) * 10 + digitVal y3) * 10 + digitVal y4,
          month := digitVal m1 * 10 + digitVal m2,
          day := digitVal d1 * 10 + digitVal d2,
          hour := digitVal h1 * 10 + digitVal h2,
          minute := digitVal n1 * 10 + digitVal n2,
          second := digitVal s1 * 10 + digitVal s2,
          micro := 0 }
      match rest with
      | [] => some base
      | ['.', f1, f2, f3, f4, f5, f6] =>
        if [f1, f2, f3, f4, f5, f6].all isDigitCh then
          some { base with micro :=
            ((((digitVal f1 * 10 + digitVal f2) * 10 + digitVal f3) * 10 + digitVal f4) * 10
              + digitVal f5) * 10 + digitVal f6 }
        else none
      | _ => none
    else none
  | _ => none

/-- One stored unit: a file under a per-team directory. -/
structure StoredFile where
  dir : List Char
  name : List Char
  content : PyDict

/-- The filesystem under `base_dir`: the set of created team
directories (in creation order) and the stored files (in write order;
the listing order is irrelevant because every reader sorts). -/
structure FS where
  dirs : List (List Char)
  files : List StoredFile

/-- The empty store. -/
def FS.empty : FS := ⟨[], []⟩

/-- `os.makedirs` if absent. -/
def addDir (fs : FS) (d : List Char) : FS :=
  if fs.dirs.contains d then fs else { fs with dirs := fs.dirs ++ [d] }

/-- Model of `_get_team_dir`: normalises the team id and creates the
directory as a side effect. -/
def get_team_dir (fs : FS) (team : String) : FS × List Char :=
  (addDir fs (normalizeTeamKey team), normalizeTeamKey team)

/-- Model of `open(filepath, 'w')` + `json.dump`: truncates an existing
unit with the same path, otherwise creates a new one. -/
def fsWrite (fs : FS) (d n : List Char) (content : PyDict) : FS :=
  if fs.files.any fun f => f.dir = d && f.name = n then
    { fs with files := fs.files.map fun f => if f.dir = d && f.name = n then ⟨d, n, content⟩ else f }
  else { fs with files := fs.files ++ [⟨d, n, content⟩] }

/-- The metadata stamping of `save_meeting_summary`:
`summary_data['team_id']`, `['date']`, `['filename']`. -/
def stampRecord (team : String) (data : PyDict) (now : PyDateTime) : PyDict :=
  pySet (pySet (pySet data "team_id" (.str team)) "date" (.str ⟨isoChars now⟩))
    "filename" (.str ⟨generate_filename team now⟩)

/-- Model of `save_meeting_summary`; the two `datetime.now()` calls in
the source (filename and `date` field) are modelled as the same
instant.  Returns the new store and the file path. -/
def save_meeting_summary (fs : FS) (team : String) (data : PyDict) (now : PyDateTime) :
    FS × List Char :=
  let p := get_team_dir fs team
  let fn := generate_filename team now
  (fsWrite p.1 p.2 fn (stampRecord team data now), p.2 ++ ('/' :: fn))

/-- Whether a filename matches the glob pattern
`<key>_*.json`. -/
def globMatch (key : List Char) (name : List Char) : Bool :=
  (key ++ ['_']).isPrefixOf name && ".json".data.isSuffixOf name
    && key.length + 6 ≤ name.length

/-- Stable insertion keeping the list in descending filename order
(model of Python's stable `files.sort(reverse=True)`; filenames within
one directory are unique). -/
def insertDescLex (x : StoredFile) : List StoredFile → List StoredFile
  | [] => [x]
  | y :: ys => if strLexLt y.name x.name then x :: y :: ys else y :: insertDescLex x ys

/-- Sort stored files by filename, newest (largest) first. -/
def sortFilesDesc (l : List StoredFile) : List StoredFile :=
  l.foldl (fun acc x => insertDescLex x acc) []

/-- The accumulation loop of `get_previous_meetings`: per file, read
the `date` field; when excluding recent records, skip files whose
parsed date is later than the threshold (a `continue`, bypassing the
limit check) and include files whose date does not parse
(`ValueError`); after an append, stop once `limit` records are
collected.  A truthy non-string `date` under exclusion raises
(`AttributeError` on `.replace`), modelled as `.error`; stored units
written by `save_meeting_summary` are always readable JSON, so the
`json.JSONDecodeError`/`OSError` skip has no counterpart in the
model. -/
def gpmLoop (excl : Bool) (thr : PyDateTime) (limit : Nat) :
    List StoredFile → List PyDict → Except String (List PyDict)
  | [], acc => .ok acc
  | f :: rest, acc =>
    match pyGet f.content "date" (.str "") with
    | .str ds =>
      if ds != "" && excl then
        match parseIso (replaceZ ds.data) with
        | some md =>
          if dtLtB thr md then gpmLoop excl thr limit rest acc
          else
            if limit ≤ (acc ++ [f.content]).length then .ok (acc ++ [f.content])
            else gpmLoop excl thr limit rest (acc ++ [f.content])
        | none =>
          if limit ≤ (acc ++ [f.content]).length then .ok (acc ++ [f.content])
          else gpmLoop excl thr limit rest (acc ++ [f.content])
      else
        if limit ≤ (acc ++ [f.content]).length then .ok (acc ++ [f.content])
        else gpmLoop excl thr limit rest (acc ++ [f.content])
    | v =>
      if pyTruthy v && excl then .error "AttributeError: object has no attribute replace"
      else
        if limit ≤ (acc ++ [f.content]).length then .ok (acc ++ [f.content])
        else gpmLoop excl thr limit rest (acc ++ [f.content])

/-- Model of `get_previous_meetings`. -/
def get_previous_meetings (fs : FS) (team : String) (limit : Nat) (exclude_current : Bool)
    (now : PyDateTime) : FS × Except String (List PyDict) :=
  let p := get_team_dir fs team
  let summary_files :=
    sortFilesDesc (p.1.files.filter fun f => f.dir = p.2 && globMatch p.2 f.name)
  (p.1, gpmLoop exclude_current (subMinute now) limit summary_files [])

/-- Model of `get_previous_meetings_for_context`. -/
def get_previous_meetings_for_context (fs : FS) (team : String) (limit : Nat)
    (now : PyDateTime) : FS × Except String (List PyDict) :=
  get_previous_meetings fs team limit false now

/-- `str.upper()`, ASCII. -/
def pyUpper (s : String) : String := ⟨s.data.map Char.toUpper⟩

/-- Python `str()` of a value interpolated into an f-string.  Saved
records only ever carry strings (and numbers) in the interpolated
positions; the container renderings are abbreviated stand-ins. -/
def pyStrOf (v : JVal) : String :=
  match v with
  | .str s => s
  | .num n => toString n
  | .boolean true => "True"
  | .boolean false => "False"
  | .null => "None"
  | .arr _ => "[...]"
  | .obj _ => "\x7b...\x7d"

/-- `strftime("%Y-%m-%d %H:%M")` used by the context formatter. -/
def contextDateChars (t : PyDateTime) : List Char :=
  padDigits 4 t.year ++ ('-' :: (padDigits 2 t.month ++ ('-' :: (padDigits 2 t.day
    ++ (' ' :: (padDigits 2 t.hour ++ (':' :: padDigits 2 t.minute)))))))

/-- The formatted meeting date of `generate_context_prompt`: parse the
iso string and reformat, else fall back to the first 16 characters of
the raw value (`ValueError`/`AttributeError` handler); non-string
values do not arise from saved records. -/
def formatMeetingDate (v : JVal) : String :=
  match v with
  | .str ds =>
    match parseIso (replaceZ ds.data) with
    | some dt => ⟨contextDateChars dt⟩
    | none => if ds != "" then ⟨ds.data.take 16⟩ else "Unknown date"
  | _ => "Unknown date"

/-- One bullet line of the previous-action-items block; a non-dict task
makes the `.get` call raise. -/
def taskContextLine (task : JVal) : Except String String :=
  match task with
  | .obj fs =>
    .ok ("  • " ++ pyStrOf (pyGet fs "task" (.str "No description"))
      ++ " (Assigned: " ++ pyStrOf (pyGet fs "assignee" (.str "Unassigned"))
      ++ ", Due: " ++ pyStrOf (pyGet fs "due_date" (.str "No due date"))
      ++ ", Status: " ++ pyStrOf (pyGet fs "status" (.str "Unknown")) ++ ")")
  | _ => .error "AttributeError: object has no attribute get"

/-- All task bullet lines. -/
def taskContextLines : List JVal → Except String (List String)
  | [] => .ok []
  | t :: rest => do
    let line ← taskContextLine t
    let others ← taskContextLines rest
    .ok (line :: others)

/-- `'; '.join(value)`: joins a list of strings (`TypeError` on
non-string items) or the characters of a string. -/
def joinSemicolon (v : JVal) : Except String String :=
  match v with
  | .arr xs =>
    let rec strList : List JVal → Except String (List String)
      | [] => .ok []
      | .str s :: rest => do
        let others ← strList rest
        .ok (s :: others)
      | _ :: _ => .error "TypeError: sequence item expected str instance"
    do
      let ss ← strList xs
      .ok (String.intercalate "; " ss)
  | .str s => .ok (String.intercalate "; " (s.data.map fun c => (⟨[c]⟩ : String)))
  | _ => .error "TypeError: can only join an iterable"

/-- The `context_parts` entries contributed by one previous meeting. -/
def meetingSection (idx : Nat) (meeting : PyDict) : Except String (List String) := do
  let header := "\n--- Meeting " ++ toString idx ++ " ("
    ++ formatMeetingDate (pyGet meeting "date" (.str "Unknown date")) ++ ") ---"
  let summaryPart : List String :=
    match meeting.lookup "summary" with
    | some sv => ["Summary: " ++ pyStrOf sv]
    | none => []
  let taskParts ←
    match meeting.lookup "tasks" with
    | some tv =>
      if pyTruthy tv then
        match pyIterItems tv with
        | some items => do
          let lines ← taskContextLines items
          pure ("\nPrevious Action Items:" :: lines)
        | none => Except.error "TypeError: object is not iterable"
      else pure []
    | none => pure []
  let decisionParts ←
    match meeting.lookup "key_decisions" with
    | some dv =>
      if pyTruthy dv then do
        let joined ← joinSemicolon dv
        pure ["\nKey Decisions: " ++ joined]
      else pure []
    | none => pure []
  pure ([header] ++ summaryPart ++ taskParts ++ decisionParts ++ [""])

/-- The sections of all previous meetings, numbered from 1. -/
def meetingSections : Nat → List PyDict → Except String (List String)
  | _, [] => .ok []
  | i, m :: rest => do
    let sec ← meetingSection i m
    let others ← meetingSections (i + 1) rest
    .ok (sec ++ others)

/-- The non-empty-history text of `generate_context_prompt`. -/
def buildContextText (team : String) (meetings : List PyDict) : Except String String := do
  let secs ← meetingSections 1 meetings
  .ok (String.intercalate "\n"
    (["\n=== PREVIOUS MEETING CONTEXT FOR TEAM: " ++ pyUpper team ++ " ===\n",
      "The following are summaries from recent team meetings. Use this context to:",
      "- Track progress on previously assigned tasks",
      "- Identify recurring issues or themes",
      "- Note completed vs. pending action items",
      "- Provide continuity in task tracking\n"]
      ++ secs ++ ["=== END PREVIOUS MEETING CONTEXT ===\n"]))

/-- Model of `generate_context_prompt`: empty string on empty history,
otherwise the formatted context block. -/
def generate_context_prompt (fs : FS) (team : String) (now : PyDateTime) :
    FS × Except String String :=
  let p := get_previous_meetings_for_context fs team 5 now
  match p.2 with
  | .error e => (p.1, .error e)
  | .ok [] => (p.1, .ok "")
  | .ok meetings => (p.1, buildContextText team meetings)

/-- The display name of a storage key (`item.replace("_", " ")`). -/
def underscoreToSpace (d : List Char) : String :=
  ⟨d.map fun c => if c = '_' then ' ' else c⟩

/-- Stable ascending insertion by Python string order. -/
def insertAscLex (x : String) : List String → List String
  | [] => [x]
  | y :: ys => if strLexLt x.data y.data then x :: y :: ys else y :: insertAscLex x ys

/-- Model of Python `sorted` on strings. -/
def pySortedStr (l : List String) : List String :=
  l.foldl (fun acc x => insertAscLex x acc) []

/-- Model of `get_team_list`: every entry of the base directory is a
team directory; display names are the keys with underscores turned
back into spaces, sorted. -/
def get_team_list (fs : FS) : List String :=
  pySortedStr (fs.dirs.map underscoreToSpace)

/-! ## Lexicographic order lemmas for filenames and sorting -/

/-- Equal heads reduce the comparison to the tails. -/
theorem strLexLt_cons_same (c : Char) (a b : List Char) :
    strLexLt (c :: a) (c :: b) = strLexLt a b := by
  simp [strLexLt, lt_irrefl]

/-- Comparison of singletons. -/
theorem strLexLt_single (a b : Char) : strLexLt [a] [b] = decide (a < b) := by
  by_cases h1 : a < b
  · simp [strLexLt, h1]
  · by_cases h2 : b < a
    · simp [strLexLt, h1, h2]
    · have : a = b := le_antisymm (not_lt.mp h2) (not_lt.mp h1)
      subst this
      simp [strLexLt, h1]

/-- Irreflexivity. -/
theorem strLexLt_irrefl (a : List Char) : strLexLt a a = false := by
  induction a with
  | nil => rfl
  | cons c rest ih => rw [strLexLt_cons_same]; exact ih

/-- A strictly smaller list is different. -/
theorem strLexLt_ne {a b : List Char} (h : strLexLt a b = true) : a ≠ b := by
  rintro rfl
  rw [strLexLt_irrefl] at h
  exact Bool.false_ne_true h

/-- Transitivity. -/
theorem strLexLt_trans : ∀ (a b c : List Char),
    strLexLt a b = true → strLexLt b c = true → strLexLt a c = true := by
  intro a
  induction a with
  | nil =>
    intro b c hab hbc
    cases b with
    | nil => simp [strLexLt] at hab
    | cons y bs =>
      cases c with
      | nil => simp [strLexLt] at hbc
      | cons z cs => simp [strLexLt]
  | cons x as ih =>
    intro b c hab hbc
    cases b with
    | nil => simp [strLexLt] at hab
    | cons y bs =>
      cases c with
      | nil => simp [strLexLt] at hbc
      | cons z cs =>
        simp only [strLexLt] at hab hbc ⊢
        split at hab
        · rename_i hxy
          split at hbc
          · rename_i hyz
            rw [if_pos (lt_trans hxy hyz)]
          · split at hbc
            · exact absurd hbc (by simp)
            · rename_i hyz hzy
              have : y = z := le_antisymm (not_lt.mp hzy) (not_lt.mp hyz)
              subst this
              rw [if_pos hxy]
        · split at hab
          · exact absurd hab (by simp)
          · rename_i hxy hyx
            have : x = y := le_antisymm (not_lt.mp hyx) (not_lt.mp hxy)
            subst this
            split at hbc
            · rename_i hxz
              rw [if_pos hxz]
            · split at hbc
              · exact absurd hbc (by simp)
              · rename_i hxz hzx
                rw [if_neg hxz, if_neg hzx]
                exact ih bs cs hab hbc

/-- Asymmetry. -/
theorem strLexLt_asymm {a b : List Char} (h : strLexLt a b = true) :
    strLexLt b a = false := by
  by_contra hc
  rw [Bool.not_eq_false] at hc
  have := strLexLt_trans a b a h hc
  rw [strLexLt_irrefl] at this
  exact Bool.false_ne_true this

/-- Totality of comparison. -/
theorem strLexLt_connex : ∀ (a b : List Char),
    strLexLt a b = true ∨ strLexLt b a = true ∨ a = b := by
  intro a
  induction a with
  | nil =>
    intro b
    cases b with
    | nil => simp
    | cons y bs => left; rfl
  | cons x as ih =>
    intro b
    cases b with
    | nil => right; left; rfl
    | cons y bs =>
      rcases lt_trichotomy x y with h | h | h
      · left; simp [strLexLt, h]
      · subst h
        rw [strLexLt_cons_same, strLexLt_cons_same]
        rcases ih bs with h2 | h2 | h2
        · exact Or.inl h2
        · exact Or.inr (Or.inl h2)
        · subst h2; simp
      · right; left; simp [strLexLt, h]

/-- A common prefix cancels. -/
theorem strLexLt_append_same (p a b : List Char) :
    strLexLt (p ++ a) (p ++ b) = strLexLt a b := by
  induction p with
  | nil => rfl
  | cons c rest ih => rw [List.cons_append, List.cons_append, strLexLt_cons_same]; exact ih

/-- Comparison of equal-length-block concatenations: decided by the
first blocks unless they are equal. -/
theorem strLexLt_append_iff : ∀ (u v : List Char), u.length = v.length → ∀ (a b : List Char),
    (strLexLt (u ++ a) (v ++ b) = true ↔ (strLexLt u v = true ∨ (u = v ∧ strLexLt a b = true))) := by
  intro u
  induction u with
  | nil =>
    intro v h a b
    cases v with
    | nil => simp [strLexLt]
    | cons y vs => simp at h
  | cons x us ih =>
    intro v h a b
    cases v with
    | nil => simp at h
    | cons y vs =>
      rcases lt_trichotomy x y with hxy | hxy | hxy
      · simp [strLexLt, hxy]
      · subst hxy
        rw [List.cons_append, List.cons_append, strLexLt_cons_same, strLexLt_cons_same,
          ih vs (by simpa using h) a b]
        simp
      · have hne : x ≠ y := fun he => absurd (he ▸ hxy) (lt_irrefl _)
        have h1 : ¬ x < y := not_lt.mpr (le_of_lt hxy)
        simp [strLexLt, h1, hxy, List.cons.injEq, hne.symm, hne]

/-- Digit characters compare like their values. -/
theorem digitChar_lt_iff : ∀ x < 10, ∀ y < 10, ((digitChar x < digitChar y) ↔ x < y) := by
  decide

/-- Digit characters are injective on digits. -/
theorem digitChar_inj_iff : ∀ x < 10, ∀ y < 10, ((digitChar x = digitChar y) ↔ x = y) := by
  decide

/-- A padded rendering has exactly `k` characters. -/
theorem padDigits_length (k n : Nat) : (padDigits k n).length = k := by
  induction k generalizing n with
  | zero => rfl
  | succ k ih => simp [padDigits, ih]

/-- Padded renderings of values below `10 ^ k` are injective. -/
theorem padDigits_inj : ∀ (k n m : Nat), n < 10 ^ k → m < 10 ^ k →
    (padDigits k n = padDigits k m ↔ n = m) := by
  intro k
  induction k with
  | zero =>
    intro n m hn hm
    simp [pow_zero, Nat.lt_one_iff] at hn hm
    subst hn; subst hm
    simp
  | succ k ih =>
    intro n m hn hm
    have h10 : (10 : Nat) ^ (k + 1) = 10 ^ k * 10 := pow_succ 10 k
    have hn10 : n / 10 < 10 ^ k := by omega
    have hm10 : m / 10 < 10 ^ k := by omega
    constructor
    · intro h
      simp only [padDigits] at h
      have := List.append_inj h (by rw [padDigits_length, padDigits_length])
      rcases this with ⟨h1, h2⟩
      have e1 : n / 10 = m / 10 := (ih (n / 10) (m / 10) hn10 hm10).mp h1
      have e2 : n % 10 = m % 10 := by
        have := List.cons.injEq (digitChar (n % 10)) [] (digitChar (m % 10)) [] ▸ h2
        rw [List.cons.injEq] at h2
        exact (digitChar_inj_iff (n % 10) (Nat.mod_lt n (by omega)) (m % 10)
          (Nat.mod_lt m (by omega))).mp h2.1
      omega
    · intro h; subst h; rfl

/-- Padded renderings of values below `10 ^ k` compare like the
values. -/
theorem padDigits_lt_iff : ∀ (k n m : Nat), n < 10 ^ k → m < 10 ^ k →
    (strLexLt (padDigits k n) (padDigits k m) = true ↔ n < m) := by
  intro k
  induction k with
  | zero =>
    intro n m hn hm
    simp [pow_zero, Nat.lt_one_iff] at hn hm
    subst hn; subst hm
    simp [padDigits, strLexLt]
  | succ k ih =>
    intro n m hn hm
    have h10 : (10 : Nat) ^ (k + 1) = 10 ^ k * 10 := pow_succ 10 k
    have hn10 : n / 10 < 10 ^ k := by omega
    have hm10 : m / 10 < 10 ^ k := by omega
    simp only [padDigits]
    rw [strLexLt_append_iff _ _ (by rw [padDigits_length, padDigits_length]),
      strLexLt_single, ih (n / 10) (m / 10) hn10 hm10,
      padDigits_inj k (n / 10) (m / 10) hn10 hm10]
    rw [decide_eq_true_eq,
      digitChar_lt_iff (n % 10) (Nat.mod_lt n (by omega)) (m % 10) (Nat.mod_lt m (by omega))]
    omega

/-- `strftime("%Y%m%d_%H%M%S")` is 15 characters. -/
theorem datetimeStr_length (t : PyDateTime) : (datetimeStrChars t).length = 15 := by
  simp [datetimeStrChars, padDigits_length]

/-- One block step for comparing concatenations of equal-length
blocks. -/
theorem lex_block_step {u v a b : List Char} (hl : u.length = v.length)
    (hcase : strLexLt u v = true ∨ (u = v ∧ strLexLt a b = true)) :
    strLexLt (u ++ a) (v ++ b) = true :=
  (strLexLt_append_iff u v hl a b).mpr hcase

/-- A strictly-later (second resolution) valid datetime renders to a
strictly larger `%Y%m%d_%H%M%S` string. -/
theorem datetimeStr_lt (t1 t2 : PyDateTime) (h1 : t1.valid) (h2 : t2.valid)
    (h : dtLtSec t1 t2) :
    strLexLt (datetimeStrChars t1) (datetimeStrChars t2) = true := by
  obtain ⟨hy1a, hy1b, hmo1a, hmo1b, hd1a, hd1b, hh1, hmi1, hs1, hmic1⟩ := h1
  obtain ⟨hy2a, hy2b, hmo2a, hmo2b, hd2a, hd2b, hh2, hmi2, hs2, hmic2⟩ := h2
  unfold datetimeStrChars
  have b4 : ∀ y : Nat, y ≤ 9999 → y < 10 ^ 4 := by intro y hy; norm_num; omega
  have b2 : ∀ y : Nat, y ≤ 59 → y < 10 ^ 2 := by intro y hy; norm_num; omega
  rcases h with hy | ⟨hy, hrest⟩
  · exact lex_block_step (by rw [padDigits_length, padDigits_length])
      (Or.inl ((padDigits_lt_iff 4 _ _ (b4 _ hy1b) (b4 _ hy2b)).mpr hy))
  · refine lex_block_step (by rw [padDigits_length, padDigits_length]) (Or.inr ⟨by rw [hy], ?_⟩)
    rcases hrest with hmo | ⟨hmo, hrest⟩
    · exact lex_block_step (by rw [padDigits_length, padDigits_length])
        (Or.inl ((padDigits_lt_iff 2 _ _ (b2 _ (by omega)) (b2 _ (by omega))).mpr hmo))
    · refine lex_block_step (by rw [padDigits_length, padDigits_length]) (Or.inr ⟨by rw [hmo], ?_⟩)
      rcases hrest with hd | ⟨hd, hrest⟩
      · exact lex_block_step (by rw [padDigits_length, padDigits_length])
          (Or.inl ((padDigits_lt_iff 2 _ _ (b2 _ (by omega)) (b2 _ (by omega))).mpr hd))
      · refine lex_block_step (by rw [padDigits_length, padDigits_length]) (Or.inr ⟨by rw [hd], ?_⟩)
        rw [strLexLt_cons_same]
        rcases hrest with hh | ⟨hh, hrest⟩
        · exact lex_block_step (by rw [padDigits_length, padDigits_length])
            (Or.inl ((padDigits_lt_iff 2 _ _ (b2 _ (by omega)) (b2 _ (by omega))).mpr hh))
        · refine lex_block_step (by rw [padDigits_length, padDigits_length])
            (Or.inr ⟨by rw [hh], ?_⟩)
          rcases hrest with hmi | ⟨hmi, hs⟩
          · exact lex_block_step (by rw [padDigits_length, padDigits_length])
              (Or.inl ((padDigits_lt_iff 2 _ _ (b2 _ hmi1) (b2 _ hmi2)).mpr hmi))
          · refine lex_block_step (by rw [padDigits_length, padDigits_length])
              (Or.inr ⟨by rw [hmi], ?_⟩)
            exact (padDigits_lt_iff 2 _ _ (b2 _ hs1) (b2 _ hs2)).mpr hs

/-- Strictly-later save times give strictly larger filenames for the
same team: the timestamp encoding makes lexicographic filename order
agree with chronological order. -/
theorem generate_filename_lt (team : String) (t1 t2 : PyDateTime)
    (h1 : t1.valid) (h2 : t2.valid) (h : dtLtSec t1 t2) :
    strLexLt (generate_filename team t1) (generate_filename team t2) = true := by
  unfold generate_filename
  rw [strLexLt_append_same, strLexLt_cons_same]
  exact lex_block_step (by rw [datetimeStr_length, datetimeStr_length])
    (Or.inl (datetimeStr_lt t1 t2 h1 h2 h))

/-- Distinct (second-resolution) save times give distinct filenames. -/
theorem generate_filename_ne (team : String) (t1 t2 : PyDateTime)
    (h1 : t1.valid) (h2 : t2.valid) (h : dtLtSec t1 t2) :
    generate_filename team t1 ≠ generate_filename team t2 :=
  strLexLt_ne (generate_filename_lt team t1 t2 h1 h2 h)

/-! ## Isoformat roundtrip -/

/-- The two-digit padding written out. -/
theorem padDigits_two_eq (n : Nat) :
    padDigits 2 n = [digitChar (n / 10 % 10), digitChar (n % 10)] := by
  simp [padDigits, Nat.div_div_eq_div_mul]

/-- The four-digit padding written out. -/
theorem padDigits_four_eq (n : Nat) :
    padDigits 4 n = [digitChar (n / 1000 % 10), digitChar (n / 100 % 10),
      digitChar (n / 10 % 10), digitChar (n % 10)] := by
  simp [padDigits, Nat.div_div_eq_div_mul]

/-- The six-digit padding written out. -/
theorem padDigits_six_eq (n : Nat) :
    padDigits 6 n = [digitChar (n / 100000 % 10), digitChar (n / 10000 % 10),
      digitChar (n / 1000 % 10), digitChar (n / 100 % 10),
      digitChar (n / 10 % 10), digitChar (n % 10)] := by
  simp [padDigits, Nat.div_div_eq_div_mul]

/-- Every digit character passes the digit test. -/
theorem isDigitCh_digitChar (x : Nat) : isDigitCh (digitChar x) = true := by
  unfold digitChar
  split <;> decide

/-- Digit value inverts digit rendering. -/
theorem digitVal_digitChar : ∀ x < 10, digitVal (digitChar x) = x := by
  decide

/-- No digit character is `Z`. -/
theorem digitChar_ne_Z (x : Nat) : digitChar x ≠ 'Z' := by
  unfold digitChar
  split <;> decide

/-- Padded renderings contain no `Z`. -/
theorem padDigits_no_Z : ∀ (k n : Nat), ∀ c ∈ padDigits k n, c ≠ 'Z' := by
  intro k
  induction k with
  | zero => intro n c hc; simp [padDigits] at hc
  | succ k ih =>
    intro n c hc
    simp only [padDigits, List.mem_append, List.mem_singleton] at hc
    rcases hc with hc | hc
    · exact ih (n / 10) c hc
    · subst hc; exact digitChar_ne_Z _

/-- `replace('Z', '+00:00')` is the identity on `Z`-free strings. -/
theorem replaceZ_of_not_mem (l : List Char) (h : 'Z' ∉ l) : replaceZ l = l := by
  induction l with
  | nil => rfl
  | cons c rest ih =>
    have hc : ¬(c = 'Z') := fun e => h (by rw [← e]; exact List.mem_cons_self c rest)
    simp only [replaceZ, if_neg hc, List.singleton_append]
    rw [ih fun hm => h (List.mem_cons_of_mem c hm)]

/-- Isoformat output never contains `Z`. -/
theorem Z_not_mem_isoChars (t : PyDateTime) : 'Z' ∉ isoChars t := by
  intro hc
  unfold isoChars at hc
  rcases List.mem_append.mp hc with h | h
  · exact padDigits_no_Z 4 t.year 'Z' h rfl
  · rcases List.mem_cons.mp h with h | h
    · exact absurd h (by decide)
    · rcases List.mem_append.mp h with h | h
      · exact padDigits_no_Z 2 t.month 'Z' h rfl
      · rcases List.mem_cons.mp h with h | h
        · exact absurd h (by decide)
        · rcases List.mem_append.mp h with h | h
          · exact padDigits_no_Z 2 t.day 'Z' h rfl
          · rcases List.mem_cons.mp h with h | h
            · exact absurd h (by decide)
            · rcases List.mem_append.mp h with h | h
              · exact padDigits_no_Z 2 t.hour 'Z' h rfl
              · rcases List.mem_cons.mp h with h | h
                · exact absurd h (by decide)
                · rcases List.mem_append.mp h with h | h
                  · exact padDigits_no_Z 2 t.minute 'Z' h rfl
                  · rcases List.mem_cons.mp h with h | h
                    · exact absurd h (by decide)
                    · rcases List.mem_append.mp h with h | h
                      · exact padDigits_no_Z 2 t.second 'Z' h rfl
                      · by_cases hm : t.micro = 0
                        · rw [if_pos hm] at h
                          exact absurd h (List.not_mem_nil 'Z')
                        · rw [if_neg hm] at h
                          rcases List.mem_cons.mp h with h | h
                          · exact absurd h (by decide)
                          · exact padDigits_no_Z 6 t.micro 'Z' h rfl

/-- `fromisoformat` inverts `isoformat()` on valid datetimes. -/
theorem parseIso_isoChars (t : PyDateTime) (h : t.valid) : parseIso (isoChars t) = some t := by
  obtain ⟨y, mo, d, hh, mi, s, mic⟩ := t
  obtain ⟨hy1, hy2, hmo1, hmo2, hd1, hd2, hhh, hmi, hs, hmic⟩ := h
  dsimp only at hy1 hy2 hmo1 hmo2 hd1 hd2 hhh hmi hs hmic
  have dv : ∀ x : Nat, digitVal (digitChar (x % 10)) = x % 10 :=
    fun x => digitVal_digitChar (x % 10) (Nat.mod_lt _ (by omega))
  unfold isoChars
  simp only [padDigits_four_eq, padDigits_two_eq, padDigits_six_eq,
    List.cons_append, List.nil_append]
  by_cases hm : mic = 0
  · rw [if_pos hm]
    simp only [parseIso, isDigitCh_digitChar, List.all_cons, List.all_nil,
      Bool.and_true, Bool.and_self, if_true, dv]
    rw [Option.some.injEq, PyDateTime.mk.injEq]
    refine ⟨by omega, by omega, by omega, by omega, by omega, by omega, by omega⟩
  · rw [if_neg hm]
    simp only [parseIso, isDigitCh_digitChar, List.all_cons, List.all_nil,
      Bool.and_true, Bool.and_self, if_true, dv]
    rw [Option.some.injEq, PyDateTime.mk.injEq]
    refine ⟨by omega, by omega, by omega, by omega, by omega, by omega, by omega⟩

/-! ## Store structure lemmas -/

/-- Assignment then lookup of the same key. -/
theorem lookup_pySet_self (d : PyDict) (k : String) (v : JVal) :
    (pySet d k v).lookup k = some v := by
  induction d with
  | nil => simp [pySet, List.lookup]
  | cons kv rest ih =>
    obtain ⟨k0, v0⟩ := kv
    by_cases h : k0 = k
    · subst h
      simp [pySet, List.lookup]
    · have hb : (k == k0) = false := beq_eq_false_iff_ne.mpr (Ne.symm h)
      simp only [pySet, if_neg h, List.lookup, hb]
      exact ih

/-- Assignment leaves other keys unchanged. -/
theorem lookup_pySet_ne (d : PyDict) (k k2 : String) (v : JVal) (h : k2 ≠ k) :
    (pySet d k v).lookup k2 = d.lookup k2 := by
  have hb : (k2 == k) = false := beq_eq_false_iff_ne.mpr h
  induction d with
  | nil =>
    simp only [pySet, List.lookup, hb]
  | cons kv rest ih =>
    obtain ⟨k0, v0⟩ := kv
    by_cases h0 : k0 = k
    · subst h0
      simp only [pySet, if_pos rfl, List.lookup, hb]
    · simp only [pySet, if_neg h0, List.lookup]
      by_cases h2 : k2 = k0
      · subst h2
        simp only [beq_self_eq_true]
      · have hb2 : (k2 == k0) = false := beq_eq_false_iff_ne.mpr h2
        simp only [hb2]
        exact ih

/-- The `date` field of a stamped record. -/
theorem stampRecord_date (team : String) (data : PyDict) (now : PyDateTime) :
    (stampRecord team data now).lookup "date" = some (.str ⟨isoChars now⟩) := by
  unfold stampRecord
  rw [lookup_pySet_ne _ _ _ _ (by decide)]
  exact lookup_pySet_self _ _ _

/-- `addDir` never touches the stored files. -/
theorem addDir_files (fs : FS) (d : List Char) : (addDir fs d).files = fs.files := by
  unfold addDir
  split <;> rfl

/-- The created directory is present afterwards. -/
theorem mem_addDir_dirs (fs : FS) (d : List Char) : d ∈ (addDir fs d).dirs := by
  unfold addDir
  split
  · rename_i h
    simpa using h
  · simp

/-- Saving never touches the directory listing beyond creating the
team directory. -/
theorem save_dirs (fs : FS) (team : String) (data : PyDict) (t : PyDateTime) :
    (save_meeting_summary fs team data t).1.dirs = (addDir fs (normalizeTeamKey team)).dirs := by
  simp only [save_meeting_summary, get_team_dir, fsWrite]
  split <;> rfl

/-- A save whose (directory, filename) pair is fresh appends exactly
one unit and leaves every existing unit unchanged. -/
theorem save_fresh (fs : FS) (team : String) (data : PyDict) (t : PyDateTime)
    (hfresh : ∀ f ∈ fs.files,
      ¬(f.dir = normalizeTeamKey team ∧ f.name = generate_filename team t)) :
    (save_meeting_summary fs team data t).1.files
      = fs.files ++ [⟨normalizeTeamKey team, generate_filename team t, stampRecord team data t⟩] := by
  simp only [save_meeting_summary, get_team_dir, fsWrite, addDir_files]
  have hany : (fs.files.any fun f =>
      decide (f.dir = normalizeTeamKey team) && decide (f.name = generate_filename team t)) = false := by
    rw [List.any_eq_false]
    intro f hf
    have := hfresh f hf
    simp only [Bool.and_eq_true, decide_eq_true_eq]
    exact fun hc => this hc
  simp only [hany, Bool.false_eq_true, if_false]

/-- Saved filenames match the reader's glob pattern. -/
theorem globMatch_generate_filename (team : String) (t : PyDateTime) :
    globMatch (normalizeTeamKey team) (generate_filename team t) = true := by
  unfold globMatch generate_filename
  have h1 : (normalizeTeamKey team ++ ['_']).isPrefixOf
      (normalizeTeamKey team ++ ('_' :: (datetimeStrChars t ++ ".json".data))) = true := by
    rw [List.isPrefixOf_iff_prefix]
    have : normalizeTeamKey team ++ ('_' :: (datetimeStrChars t ++ ".json".data))
        = (normalizeTeamKey team ++ ['_']) ++ (datetimeStrChars t ++ ".json".data) := by
      simp
    rw [this]
    exact List.prefix_append _ _
  have h2 : (".json".data.isSuffixOf
      (normalizeTeamKey team ++ ('_' :: (datetimeStrChars t ++ ".json".data)))) = true := by
    rw [List.isSuffixOf_iff_suffix]
    have : normalizeTeamKey team ++ ('_' :: (datetimeStrChars t ++ ".json".data))
        = (normalizeTeamKey team ++ ('_' :: datetimeStrChars t)) ++ ".json".data := by
      simp
    rw [this]
    exact List.suffix_append _ _
  rw [h1, h2]
  simp [List.length_append, datetimeStr_length]

/-- A stored unit written by a fresh save satisfies the reader's
per-file conditions. -/
theorem goodFile_stamp (team : String) (data : PyDict) (tf thrBase : PyDateTime)
    (hvalid : tf.valid) (hthr : dtLtB thrBase tf = false) :
    ∃ tg : PyDateTime, (stampRecord team data tf).lookup "date" = some (.str ⟨isoChars tg⟩)
      ∧ tg.valid ∧ dtLtB thrBase tg = false :=
  ⟨tf, stampRecord_date team data tf, hvalid, hthr⟩

/-- The isoformat string is non-empty. -/
theorem isoChars_ne_nil (t : PyDateTime) : isoChars t ≠ [] := by
  intro h
  have := congrArg List.length h
  simp [isoChars, padDigits_length] at this

/-- The reader loop collects every file (newest first) when all files
carry a parseable, not-too-recent `date` and the limit is not exceeded
midway. -/
theorem gpmLoop_all (thr : PyDateTime) (limit : Nat) :
    ∀ (files : List StoredFile) (acc : List PyDict),
    (∀ f ∈ files, ∃ tf : PyDateTime, f.content.lookup "date" = some (.str ⟨isoChars tf⟩)
      ∧ tf.valid ∧ dtLtB thr tf = false) →
    acc.length + files.length ≤ limit →
    gpmLoop true thr limit files acc = .ok (acc ++ files.map (·.content)) := by
  intro files
  induction files with
  | nil =>
    intro acc _ _
    simp [gpmLoop]
  | cons f rest ih =>
    intro acc hgood hlen
    obtain ⟨tf, hdate, hvalid, hthr⟩ := hgood f (List.mem_cons_self f rest)
    have hne : ((⟨isoChars tf⟩ : String) != "") = true := by
      simp only [bne_iff_ne, ne_eq]
      intro hcontra
      exact isoChars_ne_nil tf (by
        have := congrArg String.data hcontra
        simpa using this)
    unfold gpmLoop
    simp only [pyGet, hdate, hne, Bool.and_self, if_true,
      replaceZ_of_not_mem _ (Z_not_mem_isoChars tf), parseIso_isoChars tf hvalid, hthr,
      Bool.false_eq_true, if_false, List.length_append, List.length_singleton]
    by_cases hl : limit ≤ acc.length + 1
    · have hrest : rest = [] := by
        have : rest.length = 0 := by
          have := hlen
          simp only [List.length_cons] at this
          omega
        exact List.eq_nil_of_length_eq_zero this
      subst hrest
      rw [if_pos hl]
      simp
    · rw [if_neg hl]
      rw [ih (acc ++ [f.content]) (fun g hg => hgood g (List.mem_cons_of_mem f hg))
        (by simp only [List.length_append, List.length_singleton, List.length_cons,
          List.length_nil] at hlen ⊢; omega)]
      simp

/-! ## Claims C3 and C4 -/

/-- C3 counterexample: two saves for team `"Demo Team"` within the same
second (identical timestamps at second resolution) produce the same
filename, so the second save silently overwrites the first — the store
ends with a single unit holding the second summary. -/
theorem claim_C3_counterexample :
    ((save_meeting_summary
        (save_meeting_summary FS.empty "Demo Team" [("summary", .str "first")]
          ⟨2025, 1, 2, 10, 0, 0, 0⟩).1
        "Demo Team" [("summary", .str "second")] ⟨2025, 1, 2, 10, 0, 0, 500000⟩).1.files.length = 1)
    ∧ ((save_meeting_summary
        (save_meeting_summary FS.empty "Demo Team" [("summary", .str "first")]
          ⟨2025, 1, 2, 10, 0, 0, 0⟩).1
        "Demo Team" [("summary", .str "second")] ⟨2025, 1, 2, 10, 0, 0, 500000⟩).1.files.map
          fun f => pyGet f.content "summary" .null) = [.str "second"] := by
  exact ⟨rfl, rfl⟩

/-- C3 (amended): saves at second-resolution-distinct times never
overwrite: after two such saves both units are present (the first one
unchanged, under distinct filenames), and once both are older than the
one-minute guard window, `list(limit=5)` returns both, newest first. -/
theorem claim_C3_theorem (team : String) (d1 d2 : PyDict) (t1 t2 now : PyDateTime)
    (hv1 : t1.valid) (hv2 : t2.valid) (h12 : dtLtSec t1 t2)
    (hg1 : dtLtB (subMinute now) t1 = false) (hg2 : dtLtB (subMinute now) t2 = false) :
    (save_meeting_summary (save_meeting_summary FS.empty team d1 t1).1 team d2 t2).1.files
      = [⟨normalizeTeamKey team, generate_filename team t1, stampRecord team d1 t1⟩,
         ⟨normalizeTeamKey team, generate_filename team t2, stampRecord team d2 t2⟩]
    ∧ generate_filename team t1 ≠ generate_filename team t2
    ∧ (get_previous_meetings
        (save_meeting_summary (save_meeting_summary FS.empty team d1 t1).1 team d2 t2).1
        team 5 true now).2
      = .ok [stampRecord team d2 t2, stampRecord team d1 t1] := by
  have hlt := generate_filename_lt team t1 t2 hv1 hv2 h12
  have hne12 := strLexLt_ne hlt
  have hfs1 : (save_meeting_summary FS.empty team d1 t1).1.files
      = [⟨normalizeTeamKey team, generate_filename team t1, stampRecord team d1 t1⟩] := by
    rw [save_fresh FS.empty team d1 t1 (by intro f hf; simp [FS.empty] at hf)]
    rfl
  have hfs2 : (save_meeting_summary (save_meeting_summary FS.empty team d1 t1).1 team d2 t2).1.files
      = [⟨normalizeTeamKey team, generate_filename team t1, stampRecord team d1 t1⟩,
         ⟨normalizeTeamKey team, generate_filename team t2, stampRecord team d2 t2⟩] := by
    rw [save_fresh _ team d2 t2 (by
      intro f hf
      rw [hfs1] at hf
      simp only [List.mem_singleton] at hf
      subst hf
      rintro ⟨_, hn⟩
      exact hne12 hn)]
    rw [hfs1]
    rfl
  refine ⟨hfs2, hne12, ?_⟩
  simp only [get_previous_meetings, get_team_dir, addDir_files, hfs2]
  have hfilter : (List.filter
      (fun (f : StoredFile) => decide (f.dir = normalizeTeamKey team) && globMatch (normalizeTeamKey team) f.name)
      [⟨normalizeTeamKey team, generate_filename team t1, stampRecord team d1 t1⟩,
       ⟨normalizeTeamKey team, generate_filename team t2, stampRecord team d2 t2⟩])
      = [⟨normalizeTeamKey team, generate_filename team t1, stampRecord team d1 t1⟩,
         ⟨normalizeTeamKey team, generate_filename team t2, stampRecord team d2 t2⟩] := by
    refine List.filter_eq_self.mpr ?_
    intro a ha
    simp only [List.mem_cons, List.mem_singleton, List.not_mem_nil, or_false] at ha
    rcases ha with rfl | rfl <;>
      simp [globMatch_generate_filename]
  rw [hfilter]
  have hsort : sortFilesDesc
      [⟨normalizeTeamKey team, generate_filename team t1, stampRecord team d1 t1⟩,
       ⟨normalizeTeamKey team, generate_filename team t2, stampRecord team d2 t2⟩]
      = [⟨normalizeTeamKey team, generate_filename team t2, stampRecord team d2 t2⟩,
         ⟨normalizeTeamKey team, generate_filename team t1, stampRecord team d1 t1⟩] := by
    simp [sortFilesDesc, insertDescLex, hlt]
  rw [hsort]
  rw [gpmLoop_all (subMinute now) 5 _ [] (by
    intro f hf
    simp only [List.mem_cons, List.mem_singleton, List.not_mem_nil, or_false] at hf
    rcases hf with rfl | rfl
    · exact ⟨t2, stampRecord_date team d2 t2, hv2, hg2⟩
    · exact ⟨t1, stampRecord_date team d1 t1, hv1, hg1⟩) (by simp)]
  rfl

/-- C3 witness: the claim theorem applied at team `"Demo Team"`, saves
one second apart, listed half an hour later. -/
theorem claim_C3_witness :
    (save_meeting_summary (save_meeting_summary FS.empty "Demo Team"
        [("summary", .str "one")] ⟨2025, 1, 2, 10, 0, 0, 0⟩).1 "Demo Team"
        [("summary", .str "two")] ⟨2025, 1, 2, 10, 0, 1, 0⟩).1.files
      = [⟨normalizeTeamKey "Demo Team", generate_filename "Demo Team" ⟨2025, 1, 2, 10, 0, 0, 0⟩,
          stampRecord "Demo Team" [("summary", .str "one")] ⟨2025, 1, 2, 10, 0, 0, 0⟩⟩,
         ⟨normalizeTeamKey "Demo Team", generate_filename "Demo Team" ⟨2025, 1, 2, 10, 0, 1, 0⟩,
          stampRecord "Demo Team" [("summary", .str "two")] ⟨2025, 1, 2, 10, 0, 1, 0⟩⟩]
    ∧ generate_filename "Demo Team" ⟨2025, 1, 2, 10, 0, 0, 0⟩
        ≠ generate_filename "Demo Team" ⟨2025, 1, 2, 10, 0, 1, 0⟩
    ∧ (get_previous_meetings (save_meeting_summary (save_meeting_summary FS.empty "Demo Team"
          [("summary", .str "one")] ⟨2025, 1, 2, 10, 0, 0, 0⟩).1 "Demo Team"
          [("summary", .str "two")] ⟨2025, 1, 2, 10, 0, 1, 0⟩).1
        "Demo Team" 5 true ⟨2025, 1, 2, 10, 30, 0, 0⟩).2
      = .ok [stampRecord "Demo Team" [("summary", .str "two")] ⟨2025, 1, 2, 10, 0, 1, 0⟩,
             stampRecord "Demo Team" [("summary", .str "one")] ⟨2025, 1, 2, 10, 0, 0, 0⟩] := by
  exact claim_C3_theorem "Demo Team" [("summary", .str "one")] [("summary", .str "two")]
    ⟨2025, 1, 2, 10, 0, 0, 0⟩ ⟨2025, 1, 2, 10, 0, 1, 0⟩ ⟨2025, 1, 2, 10, 30, 0, 0⟩
    (by decide) (by decide) (by decide) (by decide) (by decide)

/-- C4: three records saved at strictly increasing (second-resolution)
times, all older than the one-minute guard window, are returned by
`list(limit=3)` exactly most-recent-first, and the `YYYYMMDD_HHMMSS`
filename encoding makes lexicographic filename order agree with
chronological order. -/
theorem claim_C4_theorem (team : String) (d1 d2 d3 : PyDict) (t1 t2 t3 now : PyDateTime)
    (hv1 : t1.valid) (hv2 : t2.valid) (hv3 : t3.valid)
    (h12 : dtLtSec t1 t2) (h23 : dtLtSec t2 t3)
    (hg1 : dtLtB (subMinute now) t1 = false) (hg2 : dtLtB (subMinute now) t2 = false)
    (hg3 : dtLtB (subMinute now) t3 = false) :
    (get_previous_meetings
        (save_meeting_summary (save_meeting_summary (save_meeting_summary FS.empty team d1 t1).1
          team d2 t2).1 team d3 t3).1
        team 3 true now).2
      = .ok [stampRecord team d3 t3, stampRecord team d2 t2, stampRecord team d1 t1]
    ∧ strLexLt (generate_filename team t1) (generate_filename team t2) = true
    ∧ strLexLt (generate_filename team t2) (generate_filename team t3) = true
    ∧ strLexLt (generate_filename team t1) (generate_filename team t3) = true := by
  have hlt12 := generate_filename_lt team t1 t2 hv1 hv2 h12
  have hlt23 := generate_filename_lt team t2 t3 hv2 hv3 h23
  have hlt13 := strLexLt_trans _ _ _ hlt12 hlt23
  have hfs1 : (save_meeting_summary FS.empty team d1 t1).1.files
      = [⟨normalizeTeamKey team, generate_filename team t1, stampRecord team d1 t1⟩] := by
    rw [save_fresh FS.empty team d1 t1 (by intro f hf; simp [FS.empty] at hf)]
    rfl
  have hfs2 : (save_meeting_summary (save_meeting_summary FS.empty team d1 t1).1 team d2 t2).1.files
      = [⟨normalizeTeamKey team, generate_filename team t1, stampRecord team d1 t1⟩,
         ⟨normalizeTeamKey team, generate_filename team t2, stampRecord team d2 t2⟩] := by
    rw [save_fresh _ team d2 t2 (by
      intro f hf
      rw [hfs1] at hf
      simp only [List.mem_singleton] at hf
      subst hf
      rintro ⟨_, hn⟩
      exact strLexLt_ne hlt12 hn)]
    rw [hfs1]
    rfl
  have hfs3 : (save_meeting_summary (save_meeting_summary (save_meeting_summary FS.empty team d1
      t1).1 team d2 t2).1 team d3 t3).1.files
      = [⟨normalizeTeamKey team, generate_filename team t1, stampRecord team d1 t1⟩,
         ⟨normalizeTeamKey team, generate_filename team t2, stampRecord team d2 t2⟩,
         ⟨normalizeTeamKey team, generate_filename team t3, stampRecord team d3 t3⟩] := by
    rw [save_fresh _ team d3 t3 (by
      intro f hf
      rw [hfs2] at hf
      simp only [List.mem_cons, List.mem_singleton, List.not_mem_nil, or_false] at hf
      rcases hf with rfl | rfl
      · rintro ⟨_, hn⟩
        exact strLexLt_ne hlt13 hn
      · rintro ⟨_, hn⟩
        exact strLexLt_ne hlt23 hn)]
    rw [hfs2]
    rfl
  refine ⟨?_, hlt12, hlt23, hlt13⟩
  simp only [get_previous_meetings, get_team_dir, addDir_files, hfs3]
  have hfilter : (List.filter
      (fun (f : StoredFile) => decide (f.dir = normalizeTeamKey team)
        && globMatch (normalizeTeamKey team) f.name)
      [⟨normalizeTeamKey team, generate_filename team t1, stampRecord team d1 t1⟩,
       ⟨normalizeTeamKey team, generate_filename team t2, stampRecord team d2 t2⟩,
       ⟨normalizeTeamKey team, generate_filename team t3, stampRecord team d3 t3⟩])
      = [⟨normalizeTeamKey team, generate_filename team t1, stampRecord team d1 t1⟩,
         ⟨normalizeTeamKey team, generate_filename team t2, stampRecord team d2 t2⟩,
         ⟨normalizeTeamKey team, generate_filename team t3, stampRecord team d3 t3⟩] := by
    refine List.filter_eq_self.mpr ?_
    intro a ha
    simp only [List.mem_cons, List.mem_singleton, List.not_mem_nil, or_false] at ha
    rcases ha with rfl | rfl | rfl <;>
      simp [globMatch_generate_filename]
  rw [hfilter]
  have hsort : sortFilesDesc
      [⟨normalizeTeamKey team, generate_filename team t1, stampRecord team d1 t1⟩,
       ⟨normalizeTeamKey team, generate_filename team t2, stampRecord team d2 t2⟩,
       ⟨normalizeTeamKey team, generate_filename team t3, stampRecord team d3 t3⟩]
      = [⟨normalizeTeamKey team, generate_filename team t3, stampRecord team d3 t3⟩,
         ⟨normalizeTeamKey team, generate_filename team t2, stampRecord team d2 t2⟩,
         ⟨normalizeTeamKey team, generate_filename team t1, stampRecord team d1 t1⟩] := by
    simp [sortFilesDesc, insertDescLex, hlt12, hlt23]
  rw [hsort]
  rw [gpmLoop_all (subMinute now) 3 _ [] (by
    intro f hf
    simp only [List.mem_cons, List.mem_singleton, List.not_mem_nil, or_false] at hf
    rcases hf with rfl | rfl | rfl
    · exact ⟨t3, stampRecord_date team d3 t3, hv3, hg3⟩
    · exact ⟨t2, stampRecord_date team d2 t2, hv2, hg2⟩
    · exact ⟨t1, stampRecord_date team d1 t1, hv1, hg1⟩) (by simp)]
  rfl

/-- C4 witness: the claim theorem applied for team `"Demo Team"` with
saves at 10:00:00, 10:00:30 and 10:01:10 listed at 10:30:00. -/
theorem claim_C4_witness :
    (get_previous_meetings
        (save_meeting_summary (save_meeting_summary (save_meeting_summary FS.empty "Demo Team"
          [("summary", .str "one")] ⟨2025, 3, 4, 10, 0, 0, 0⟩).1 "Demo Team"
          [("summary", .str "two")] ⟨2025, 3, 4, 10, 0, 30, 0⟩).1 "Demo Team"
          [("summary", .str "three")] ⟨2025, 3, 4, 10, 1, 10, 0⟩).1
        "Demo Team" 3 true ⟨2025, 3, 4, 10, 30, 0, 0⟩).2
      = .ok [stampRecord "Demo Team" [("summary", .str "three")] ⟨2025, 3, 4, 10, 1, 10, 0⟩,
             stampRecord "Demo Team" [("summary", .str "two")] ⟨2025, 3, 4, 10, 0, 30, 0⟩,
             stampRecord "Demo Team" [("summary", .str "one")] ⟨2025, 3, 4, 10, 0, 0, 0⟩]
    ∧ strLexLt (generate_filename "Demo Team" ⟨2025, 3, 4, 10, 0, 0, 0⟩)
        (generate_filename "Demo Team" ⟨2025, 3, 4, 10, 0, 30, 0⟩) = true
    ∧ strLexLt (generate_filename "Demo Team" ⟨2025, 3, 4, 10, 0, 30, 0⟩)
        (generate_filename "Demo Team" ⟨2025, 3, 4, 10, 1, 10, 0⟩) = true
    ∧ strLexLt (generate_filename "Demo Team" ⟨2025, 3, 4, 10, 0, 0, 0⟩)
        (generate_filename "Demo Team" ⟨2025, 3, 4, 10, 1, 10, 0⟩) = true := by
  exact claim_C4_theorem "Demo Team" [("summary", .str "one")] [("summary", .str "two")]
    [("summary", .str "three")] ⟨2025, 3, 4, 10, 0, 0, 0⟩ ⟨2025, 3, 4, 10, 0, 30, 0⟩
    ⟨2025, 3, 4, 10, 1, 10, 0⟩ ⟨2025, 3, 4, 10, 30, 0, 0⟩
    (by decide) (by decide) (by decide) (by decide) (by decide)
    (by decide) (by decide) (by decide)

/-! ## Claims C6 and C7 -/

/-- Non-strict Python string order, the relation in which the team
list is sorted. -/
def strLeStr (a b : String) : Prop := strLexLt b.data a.data = false

/-- Membership through ascending insertion. -/
theorem mem_insertAscLex (x y : String) : ∀ l, (y ∈ insertAscLex x l ↔ y = x ∨ y ∈ l) := by
  intro l
  induction l with
  | nil => simp [insertAscLex]
  | cons z zs ih =>
    unfold insertAscLex
    by_cases h : strLexLt x.data z.data = true
    · simp only [if_pos h, List.mem_cons]
    · simp only [if_neg h, List.mem_cons, ih]
      tauto

/-- Membership through the insertion sort. -/
theorem mem_pySortedStr_aux (l : List String) : ∀ (acc : List String) (y : String),
    (y ∈ l.foldl (fun acc x => insertAscLex x acc) acc ↔ y ∈ acc ∨ y ∈ l) := by
  induction l with
  | nil => intro acc y; simp
  | cons x xs ih =>
    intro acc y
    rw [List.foldl_cons, ih (insertAscLex x acc) y, mem_insertAscLex x y acc, List.mem_cons]
    tauto

/-- The sorted team list has the same members as the input. -/
theorem mem_pySortedStr (l : List String) (y : String) : y ∈ pySortedStr l ↔ y ∈ l := by
  unfold pySortedStr
  rw [mem_pySortedStr_aux l [] y]
  simp

/-- Ascending insertion preserves sortedness. -/
theorem pairwise_insertAscLex (x : String) (l : List String)
    (hl : l.Pairwise strLeStr) : (insertAscLex x l).Pairwise strLeStr := by
  induction l with
  | nil => simp [insertAscLex, strLeStr]
  | cons z zs ih =>
    rcases List.pairwise_cons.mp hl with ⟨hz, hzs⟩
    unfold insertAscLex
    by_cases h : strLexLt x.data z.data = true
    · rw [if_pos h]
      refine List.pairwise_cons.mpr ⟨?_, hl⟩
      intro b hb
      rcases List.mem_cons.mp hb with rfl | hb
      · exact strLexLt_asymm h
      · by_contra hc
        unfold strLeStr at hc
        rw [Bool.not_eq_false] at hc
        have htr := strLexLt_trans _ _ _ hc h
        rw [hz b hb] at htr
        exact Bool.false_ne_true htr
    · rw [if_neg h]
      refine List.pairwise_cons.mpr ⟨?_, ih hzs⟩
      intro b hb
      rcases (mem_insertAscLex x b zs).mp hb with rfl | hb
      · exact Bool.eq_false_iff.mpr h
      · exact hz b hb

/-- The insertion sort produces a sorted list. -/
theorem pairwise_pySortedStr (l : List String) : (pySortedStr l).Pairwise strLeStr := by
  unfold pySortedStr
  have key : ∀ (acc : List String), acc.Pairwise strLeStr →
      (l.foldl (fun acc x => insertAscLex x acc) acc).Pairwise strLeStr := by
    induction l with
    | nil => intro acc hacc; simpa using hacc
    | cons x xs ih =>
      intro acc hacc
      rw [List.foldl_cons]
      exact ih _ (pairwise_insertAscLex x acc hacc)
  exact key [] (by simp)

/-- A team appears in the listing exactly when its directory exists. -/
theorem mem_get_team_list (fs : FS) (name : String) :
    name ∈ get_team_list fs ↔ ∃ d ∈ fs.dirs, name = underscoreToSpace d := by
  unfold get_team_list
  rw [mem_pySortedStr, List.mem_map]
  constructor
  · rintro ⟨d, hd, rfl⟩
    exact ⟨d, hd, rfl⟩
  · rintro ⟨d, hd, rfl⟩
    exact ⟨d, hd, rfl⟩

/-- The fixed clock used by the C6 counterexample. -/
def c6Now : PyDateTime := ⟨2025, 1, 1, 0, 0, 0, 0⟩

/-- The store after a single history read for the unknown team
`"Ghost Team"`: the read created the (empty) team directory. -/
def c6FS : FS := (generate_context_prompt FS.empty "Ghost Team" c6Now).1

/-- C6 counterexample: after a history read for a team with no
persisted records, `get_team_list` reports the team even though zero
units were ever persisted, because `_get_team_dir` creates the
directory as a side effect of reads. -/
theorem claim_C6_counterexample :
    get_team_list c6FS = ["ghost team"] ∧ c6FS.files = [] := by
  exact ⟨rfl, rfl⟩

/-- C6 (amended): `get_team_list` returns the sorted display names of
exactly the existing team directories; every team with a persisted
unit appears (saving creates the directory), but a directory created
by a read for a history-less team appears as well. -/
theorem claim_C6_theorem (fs : FS) :
    (get_team_list fs).Pairwise strLeStr
    ∧ (∀ name, name ∈ get_team_list fs ↔ ∃ d ∈ fs.dirs, name = underscoreToSpace d)
    ∧ (∀ (team : String) (data : PyDict) (t : PyDateTime),
        underscoreToSpace (normalizeTeamKey team)
          ∈ get_team_list (save_meeting_summary fs team data t).1) := by
  refine ⟨pairwise_pySortedStr _, mem_get_team_list fs, ?_⟩
  intro team data t
  refine (mem_get_team_list _ _).mpr ⟨normalizeTeamKey team, ?_, rfl⟩
  rw [save_dirs]
  exact mem_addDir_dirs fs _

/-- C7: for a team with zero persisted records the context formatter
yields the empty string, and the analysis prompt built from that
context is the one built with no team at all (empty context). -/
theorem claim_C7_theorem (fs : FS) (team transcript : String) (now : PyDateTime)
    (h : ∀ f ∈ fs.files, f.dir ≠ normalizeTeamKey team) :
    (generate_context_prompt fs team now).2 = .ok ""
    ∧ ((generate_context_prompt fs team now).2.map fun c => create_analysis_prompt transcript c)
        = .ok (create_analysis_prompt transcript "") := by
  have hres : (generate_context_prompt fs team now).2 = .ok "" := by
    unfold generate_context_prompt get_previous_meetings_for_context
    simp only [get_previous_meetings, get_team_dir, addDir_files]
    have hfilter : (fs.files.filter fun (f : StoredFile) =>
        decide (f.dir = normalizeTeamKey team) && globMatch (normalizeTeamKey team) f.name) = [] := by
      refine List.filter_eq_nil_iff.mpr ?_
      intro a ha
      simp only [Bool.and_eq_true, decide_eq_true_eq, not_and]
      intro hdir
      exact absurd hdir (h a ha)
    rw [hfilter]
    rfl
  exact ⟨hres, by rw [hres]; rfl⟩

/-- C7 witness: the claim theorem applied to the empty store, team
`"Demo Team"` and transcript `"hello"`. -/
theorem claim_C7_witness :
    (generate_context_prompt FS.empty "Demo Team" ⟨2025, 1, 1, 0, 0, 0, 0⟩).2 = .ok ""
    ∧ ((generate_context_prompt FS.empty "Demo Team" ⟨2025, 1, 1, 0, 0, 0, 0⟩).2.map
          fun c => create_analysis_prompt "hello" c)
        = .ok (create_analysis_prompt "hello" "") := by
  exact claim_C7_theorem FS.empty "Demo Team" "hello" ⟨2025, 1, 1, 0, 0, 0, 0⟩
    (by intro f hf; simp [FS.empty] at hf)
